import Mathlib

/-! # JFET device model of qucsator (`src/components/jfet.cpp`)

A shallow embedding of `jfet::jfet`, `jfet::initDC`, `jfet::calcDC`,
`jfet::calcOperatingPoints` and `jfet::calcSP`, and of
`operatingpoint::findOperatingPoint` (`src/operatingpoint.cpp`).  The type
`nr_double_t` of the source is read as an arbitrary linearly ordered field `α`,
so every definition can be evaluated over `ℚ` and the analytic statements
(limits, derivatives) are made over `ℝ`.

What the sources at hand do not contain is taken as a parameter:

* `Constants` : the macros `K`, `kB`, `Q` of `constants.h`;
* `Libm`      : `exp`, `log`, `pow`, `M_SQRT2`, `M_PI` of `<math.h>`;
* `pnVoltage` : the junction voltage limiter `diode::pnVoltage` of `diode.cpp`;
* `Helpers`   : `diode::splitResistance`, `diode::applyResistance` and
  `diode::disableResistance` of `diode.cpp`;
* `ytos`      : the conversion of an admittance matrix to S-parameters.
-/

namespace Qucsator

/-! ## Parameters standing for code outside the sources -/

/-- The macros of `constants.h` that `jfet.cpp` uses: `K` (absolute zero in
degrees Celsius), `kB` (Boltzmann constant) and `Q` (elementary charge). -/
structure Constants (α : Type) where
  K : α
  kB : α
  Q : α

/-- The functions and constants of `<math.h>` that `jfet.cpp` uses. -/
structure Libm (α : Type) where
  exp : α → α
  log : α → α
  pow : α → α → α
  M_SQRT2 : α
  M_PI : α

/-! ## Complex numbers, as far as `calcDC` needs them -/

/-- A value of the class `complex`: real and imaginary part. -/
structure Cplx (α : Type) where
  re : α
  im : α

namespace Cplx

variable {α : Type}

/-- The conversion of an `nr_double_t` to `complex` (imaginary part zero). -/
def ofReal [Zero α] (x : α) : Cplx α := ⟨x, 0⟩

/-- The difference `a - b` of two values of `complex`. -/
def sub [Sub α] (a b : Cplx α) : Cplx α := ⟨a.re - b.re, a.im - b.im⟩

/-- The function `real` of `complex.h`. -/
def real (a : Cplx α) : α := a.re

end Cplx

/-! ## The device -/

/-- The properties of a JFET that `getPropertyDouble` is asked for. -/
structure Properties (α : Type) where
  Is : α
  N : α
  Vt0 : α
  Lambda : α
  Beta : α
  M : α
  Cgd : α
  Cgs : α
  Pb : α
  Rs : α
  Rd : α

/-- The state of a `jfet` object that `calcDC` and `calcOperatingPoints` read
and write: its properties, the node voltages
(`getV`/`setV`, ports numbered from 1), the members `UgsPrev` and `UgdPrev`,
the operating points, and the current vector and conductance matrix written by
`setI` and `setY`. -/
structure Jfet (α : Type) where
  prop : Properties α
  V : Nat → Cplx α
  UgsPrev : α
  UgdPrev : α
  oper : String → Option α
  I : Nat → α
  Y : Nat → Nat → α

section Device

variable {α : Type}

/-- The accessor `circuit::getV`. -/
def getV (s : Jfet α) (port : Nat) : Cplx α := s.V port

/-- The accessor `circuit::setV`, here with an `nr_double_t` argument. -/
def setV [Zero α] (s : Jfet α) (port : Nat) (v : α) : Jfet α :=
  { s with V := fun k => if k = port then Cplx.ofReal v else s.V k }

/-- The accessor `circuit::setI`. -/
def setI (s : Jfet α) (port : Nat) (v : α) : Jfet α :=
  { s with I := fun k => if k = port then v else s.I k }

/-- The accessor `circuit::setY`. -/
def setY (s : Jfet α) (r c : Nat) (v : α) : Jfet α :=
  { s with Y := fun i j => if i = r ∧ j = c then v else s.Y i j }

/-- Modelled from the spec: `circuit::setOperatingPoint` is not part of the
sources at hand.  The operating points are a mapping from a key to a real
scalar, keys are unique and the last write wins. -/
def setOperatingPoint (s : Jfet α) (n : String) (v : α) : Jfet α :=
  { s with oper := fun k => if k = n then some v else s.oper k }

/-- Modelled from the spec: `circuit::getOperatingPoint` is not part of the
sources at hand.  A key that was never written has no value. -/
def getOperatingPoint (s : Jfet α) (n : String) : Option α := s.oper n

end Device

/-! ## `jfet::calcDC` -/

section CalcDC

variable {α : Type} [LinearOrderedField α]

/-- The thermal voltage: `T = -K + 26.5; Ut = T * kB / Q` (lines 132-133). -/
def thermalVoltage (c : Constants α) : α :=
  let T := -c.K + 26.5
  T * c.kB / c.Q

/-- The critical voltage of lines 138-139:
`n * Ut * log (n * Ut / M_SQRT2 / Is)`. -/
def critVoltage (m : Libm α) (Is n Ut : α) : α :=
  n * Ut * m.log (n * Ut / m.M_SQRT2 / Is)

/-- The conductance and the current of a gate junction. -/
structure Junction (α : Type) where
  g : α
  I : α

/-- The evaluation of one gate diode in `calcDC` (lines 146-148 for the
gate-source junction, lines 151-153 for the gate-drain junction, the same text
with `Ugd` for `Ugs`). -/
def dcJunction (m : Libm α) (Is Ut n U : α) : Junction α :=
  let gtiny := if U < -10 * Ut * n then Is else 0
  { g := Is / Ut / n * m.exp (U / Ut / n) + gtiny
    I := Is * (m.exp (U / Ut / n) - 1) + gtiny * U }

/-- The channel current and its two derivatives. -/
structure Channel (α : Type) where
  Ids : α
  gm : α
  gds : α

/-- The normal-mode saturation formulas (lines 167-169). -/
def normalSat (l beta Ugst Uds : α) : Channel α :=
  let b := beta * (1 + l * Uds)
  { Ids := b * Ugst * Ugst
    gm := b * 2 * Ugst
    gds := l * b * Ugst * Ugst }

/-- The normal-mode linear-region formulas (lines 173-175). -/
def normalLin (l beta Ugst Uds : α) : Channel α :=
  let b := beta * (1 + l * Uds)
  { Ids := b * Uds * (2 * Ugst - Uds)
    gm := b * 2 * Uds
    gds := b * 2 * (Ugst - Uds) + l * beta * Uds * (2 * Ugst - Uds) }

/-- The inverse-mode saturation formulas (lines 191-193). -/
def inverseSat (l beta Ugdt Uds : α) : Channel α :=
  let b := beta * (1 - l * Uds)
  { Ids := -b * Ugdt * Ugdt
    gm := -b * 2 * Ugdt
    gds := beta * l * Ugdt * Ugdt + b * 2 * Ugdt }

/-- The inverse-mode linear-region formulas (lines 197-199). -/
def inverseLin (l beta Ugdt Uds : α) : Channel α :=
  let b := beta * (1 - l * Uds)
  { Ids := b * Uds * (2 * Ugdt + Uds)
    gm := b * 2 * Uds
    gds := 2 * b * Ugdt - beta * l * Uds * (2 * Ugdt + Uds) }

/-- The normal-mode branch of `calcDC` (lines 156-177), taken when
`Uds >= 0`. -/
def normalMode (Vt0 l beta Ugs Uds : α) : Channel α :=
  let Ugst := Ugs - Vt0
  if Ugst < 0 then ⟨0, 0, 0⟩
  else if Ugst ≤ Uds then normalSat l beta Ugst Uds
  else normalLin l beta Ugst Uds

/-- The inverse-mode branch of `calcDC` (lines 180-201), taken when
`Uds < 0`. -/
def inverseMode (Vt0 l beta Ugd Uds : α) : Channel α :=
  let Ugdt := Ugd - Vt0
  if Ugdt < 0 then ⟨0, 0, 0⟩
  else if Ugdt ≤ -Uds then inverseSat l beta Ugdt Uds
  else inverseLin l beta Ugdt Uds

/-- The channel evaluation of `calcDC` (lines 143 and 155-202) at the limited
junction voltages `Ugs` and `Ugd`. -/
def channel (Vt0 l beta Ugs Ugd : α) : Channel α :=
  let Uds := Ugs - Ugd
  if Uds ≥ 0 then normalMode Vt0 l beta Ugs Uds
  else inverseMode Vt0 l beta Ugd Uds

/-- The method `jfet::calcDC` (lines 122-219). -/
def calcDC (c : Constants α) (m : Libm α) (pnVoltage : α → α → α → α → α)
    (s : Jfet α) : Jfet α :=
  let Is := s.prop.Is
  let n := s.prop.N
  let Vt0 := s.prop.Vt0
  let l := s.prop.Lambda
  let beta := s.prop.Beta
  let Ut := thermalVoltage c
  let Ugd := Cplx.real (Cplx.sub (getV s 1) (getV s 2))
  let Ugs := Cplx.real (Cplx.sub (getV s 1) (getV s 3))
  let UgsCrit := critVoltage m Is n Ut
  let UgdCrit := critVoltage m Is n Ut
  let Ugs := pnVoltage Ugs s.UgsPrev (Ut * n) UgsCrit
  let s := { s with UgsPrev := Ugs }
  let Ugd := pnVoltage Ugd s.UgdPrev (Ut * n) UgdCrit
  let s := { s with UgdPrev := Ugd }
  let Uds := Ugs - Ugd
  let gs := dcJunction m Is Ut n Ugs
  let ggs := gs.g
  let Igs := gs.I
  let gd := dcJunction m Is Ut n Ugd
  let ggd := gd.g
  let Igd := gd.I
  let ch := channel Vt0 l beta Ugs Ugd
  let Ids := ch.Ids
  let gm := ch.gm
  let gds := ch.gds
  let s := setOperatingPoint s "gm" gm
  let s := setOperatingPoint s "gds" gds
  let s := setOperatingPoint s "Id" Ids
  let IeqG := Igs - ggs * Ugs
  let IeqD := Igd - ggd * Ugd
  let IeqS := Ids - gm * Ugs - gds * Uds
  let s := setI s 1 (-IeqG - IeqD)
  let s := setI s 2 (IeqD - IeqS)
  let s := setI s 3 (IeqG + IeqS)
  let s := setY s 1 1 (ggs + ggd)
  let s := setY s 1 2 (-ggd)
  let s := setY s 1 3 (-ggs)
  let s := setY s 2 1 (-ggd + gm)
  let s := setY s 2 2 (gds + ggd)
  let s := setY s 2 3 (-gm - gds)
  let s := setY s 3 1 (-ggs - gm)
  let s := setY s 3 2 (-gds)
  let s := setY s 3 3 (ggs + gds + gm)
  s

end CalcDC

/-! ## `jfet::calcOperatingPoints` -/

section CalcOperatingPoints

variable {α : Type} [LinearOrderedField α]

/-- The thermal voltage as `calcOperatingPoints` writes it:
`T = -K + 26.5; Ut = kB * T / Q` (lines 231-232). -/
def thermalVoltageOP (c : Constants α) : α :=
  let T := -c.K + 26.5
  c.kB * T / c.Q

/-- The evaluation of one gate diode in `calcOperatingPoints` (lines 236-237
for the gate-source junction, lines 238-239 for the gate-drain junction). -/
def opJunction (m : Libm α) (Is Ut n U : α) : Junction α :=
  { g := Is / Ut / n * m.exp (U / Ut / n)
    I := Is * (m.exp (U / Ut / n) - 1) }

/-- The depletion capacitance of one junction in `calcOperatingPoints`
(lines 241-244 for `Cgd`, lines 246-249 for `Cgs`). -/
def opCapacitance (m : Libm α) (C0 z Pb U : α) : α :=
  if U < 0 then C0 * m.pow (1 - U / Pb) (-z)
  else C0 * (1 + z * U / Pb)

/-- The method `jfet::calcOperatingPoints` (lines 221-257). -/
def calcOperatingPoints (c : Constants α) (m : Libm α) (s : Jfet α) : Jfet α :=
  let Is := s.prop.Is
  let n := s.prop.N
  let z := s.prop.M
  let Cgd0 := s.prop.Cgd
  let Cgs0 := s.prop.Cgs
  let Pb := s.prop.Pb
  let Ut := thermalVoltageOP c
  let Ugd := Cplx.real (Cplx.sub (getV s 1) (getV s 2))
  let Ugs := Cplx.real (Cplx.sub (getV s 1) (getV s 3))
  let ggs := (opJunction m Is Ut n Ugs).g
  let ggd := (opJunction m Is Ut n Ugd).g
  let Cgd := opCapacitance m Cgd0 z Pb Ugd
  let Cgs := opCapacitance m Cgs0 z Pb Ugs
  let s := setOperatingPoint s "ggs" ggs
  let s := setOperatingPoint s "ggd" ggd
  let s := setOperatingPoint s "Ugs" Ugs
  let s := setOperatingPoint s "Ugd" Ugd
  let s := setOperatingPoint s "Cgd" Cgd
  let s := setOperatingPoint s "Cgs" Cgs
  s

end CalcOperatingPoints

/-! ## Concrete input for evaluating the model -/

section Sample

variable {α : Type} [LinearOrderedField α]

/-- Modelled from the spec: `constants.h` is not part of the sources at hand.
The thermal voltage is computed "from a fixed reference temperature (26.5 °C)
using Boltzmann constant over elementary charge"; these are the values of
absolute zero in degrees Celsius, the Boltzmann constant in J/K and the
elementary charge in As. -/
def physicalConstants : Constants α :=
  { K := -273.15
    kB := 1.380650524e-23
    Q := 1.6021765314e-19 }

/-- A device to evaluate the model at: the parameters of the scenario of the
specification (`Is=1e-14, N=1, Vt0=-2.0, Beta=1e-3, Lambda=0`) with
`M = 1/2`, `Cgd = Cgs = 1e-12`, `Pb = 1` and no series resistances, at the
real node voltages `Vg`, `Vd`, `Vs`, before any operating point is written. -/
def sampleDevice (Vg Vd Vs : α) : Jfet α :=
  { prop :=
      { Is := 1e-14, N := 1, Vt0 := -2.0, Lambda := 0, Beta := 1e-3,
        M := 0.5, Cgd := 1e-12, Cgs := 1e-12, Pb := 1, Rs := 0, Rd := 0 }
    V := fun k =>
      if k = 1 then Cplx.ofReal Vg else if k = 2 then Cplx.ofReal Vd else Cplx.ofReal Vs
    UgsPrev := 0
    UgdPrev := 0
    oper := fun _ => none
    I := fun _ => 0
    Y := fun _ _ => 0 }

end Sample

/-! ## The limited junction voltages of `calcDC` -/

section Limited

variable {α : Type} [LinearOrderedField α]

/-- The value that line 140 of `calcDC` assigns to `Ugs` and `UgsPrev`: the
limiter applied to the raw gate-source voltage of line 135, the old `UgsPrev`,
`Ut * n` and the critical voltage of line 138. -/
def limitedUgs (c : Constants α) (m : Libm α) (pnVoltage : α → α → α → α → α)
    (s : Jfet α) : α :=
  pnVoltage (Cplx.real (Cplx.sub (getV s 1) (getV s 3))) s.UgsPrev
    (thermalVoltage c * s.prop.N) (critVoltage m s.prop.Is s.prop.N (thermalVoltage c))

/-- The value that line 141 of `calcDC` assigns to `Ugd` and `UgdPrev`: the
limiter applied to the raw gate-drain voltage of line 134, the old `UgdPrev`,
`Ut * n` and the critical voltage of line 139. -/
def limitedUgd (c : Constants α) (m : Libm α) (pnVoltage : α → α → α → α → α)
    (s : Jfet α) : α :=
  pnVoltage (Cplx.real (Cplx.sub (getV s 1) (getV s 2))) s.UgdPrev
    (thermalVoltage c * s.prop.N) (critVoltage m s.prop.Is s.prop.N (thermalVoltage c))

end Limited

/-! ## The two branches of the capacitance law -/

section CapacitanceBranches

variable {α : Type} [LinearOrderedField α]

/-- The power-law branch of `calcOperatingPoints` (line 242 for `Cgd`,
line 247 for `Cgs`): `C0 * pow (1 - U / Pb, -z)`. -/
def capPowerLaw (m : Libm α) (C0 z Pb U : α) : α :=
  C0 * m.pow (1 - U / Pb) (-z)

/-- The linear branch of `calcOperatingPoints` (line 244 for `Cgd`, line 249
for `Cgs`): `C0 * (1 + z * U / Pb)`. -/
def capLinear (C0 z Pb U : α) : α :=
  C0 * (1 + z * U / Pb)

/-- The quotient `a / b` of the source as a real number.  There is none when
`b` is zero: the double that the division yields is then an infinity or NaN,
and so is, or derives from one, everything computed from it. -/
def quotient (a b : α) : Option α :=
  if b = 0 then none else some (a / b)

/-- The power-law branch (lines 242 and 247) with its division `U / Pb` read by
`quotient`: the real number it computes, if the division is one by a non-zero
`Pb`. -/
def capPowerLawDefined (m : Libm α) (C0 z Pb U : α) : Option α :=
  (quotient U Pb).map fun q => C0 * m.pow (1 - q) (-z)

/-- The linear branch (lines 244 and 249) with its division `z * U / Pb` read
by `quotient`: the real number it computes, if the division is one by a
non-zero `Pb`. -/
def capLinearDefined (C0 z Pb U : α) : Option α :=
  (quotient (z * U) Pb).map fun q => C0 * (1 + q)

/-- The depletion capacitance of lines 241-244 and 246-249 with its divisions
read by `quotient`. -/
def opCapacitanceDefined (m : Libm α) (C0 z Pb U : α) : Option α :=
  if U < 0 then capPowerLawDefined m C0 z Pb U else capLinearDefined C0 z Pb U

end CapacitanceBranches

/-! ## `jfet::jfet`, `jfet::initDC` and `jfet::calcSP` -/

namespace Cplx

variable {α : Type}

/-- The function `rect` of `complex.h`: a complex number from its real and
imaginary part. -/
def rect (x y : α) : Cplx α := ⟨x, y⟩

/-- The sum `a + b` of two values of `complex`. -/
def add [Add α] (a b : Cplx α) : Cplx α := ⟨a.re + b.re, a.im + b.im⟩

/-- The negation `-a` of a value of `complex`. -/
def neg [Neg α] (a : Cplx α) : Cplx α := ⟨-a.re, -a.im⟩

end Cplx

/-- A value of the class `matrix`, as far as `calcSP` uses it: the complex
entries, rows and columns numbered from 1. -/
def matrix (α : Type) : Type := Nat → Nat → Cplx α

namespace matrix

variable {α : Type}

/-- The constructor `matrix (n)`: a square matrix of zeros. -/
def new [Zero α] (_n : Nat) : matrix α := fun _ _ => Cplx.ofReal 0

/-- The method `matrix::set`. -/
def set (y : matrix α) (r c : Nat) (v : Cplx α) : matrix α :=
  fun i j => if i = r ∧ j = c then v else y i j

/-- The method `matrix::get`. -/
def get (y : matrix α) (r c : Nat) : Cplx α := y r c

end matrix

/-- A pointer to a `circuit`: `none` is `NULL`. -/
abbrev Handle : Type := Option Nat

/-- A `jfet` object with the members that `initDC` and `calcSP` use beyond
those of `Jfet`: the pointers `rs` and `rd` to the series-resistance
sub-elements and the S-parameter matrix written by `setS`. -/
structure Device (α : Type) where
  core : Jfet α
  rs : Handle
  rd : Handle
  S : Nat → Nat → Cplx α

/-- The three helpers of `diode.cpp` that `initDC` calls, which are not part of
the sources at hand, acting on a state `W` that stands for everything they may
read and write (the net of the solver, the nodes of the device, the
sub-elements).  The arguments `this` and `solver->getNet ()` are part of `W`;
`splitResistance` returns the pointer that `initDC` stores. -/
structure Helpers (W α : Type) where
  splitResistance : W → Handle → String → String → Nat → Handle × W
  applyResistance : W → Handle → α → W
  disableResistance : W → Handle → Nat → W

/-- A call of one of the helpers of `diode.cpp` with its arguments (`this` and
the net left out). -/
inductive HelperCall (α : Type) where
  | splitResistance (res : Handle) (label : String) (terminalName : String) (slot : Nat)
  | applyResistance (res : Handle) (R : α)
  | disableResistance (res : Handle) (slot : Nat)

/-- Helpers that do nothing but record their calls, in order; `ret` is what
`splitResistance` returns. -/
def recordingHelpers {α : Type} (ret : Handle → String → String → Nat → Handle) :
    Helpers (List (HelperCall α)) α :=
  { splitResistance := fun w res label terminalName slot =>
      (ret res label terminalName slot,
        w ++ [HelperCall.splitResistance res label terminalName slot])
    applyResistance := fun w res R => w ++ [HelperCall.applyResistance res R]
    disableResistance := fun w res slot => w ++ [HelperCall.disableResistance res slot] }

section InitDC

variable {α : Type} [LinearOrderedField α] {W : Type}

/-- The constructor `jfet::jfet` (lines 46-49): `rs = rd = NULL`.  The state
of the base class `circuit` is given. -/
def jfetNew (core : Jfet α) (S : Nat → Nat → Cplx α) : Device α :=
  { core := core, rs := none, rd := none, S := S }

/-- The method `jfet::initDC` (lines 86-120). -/
def initDC (h : Helpers W α) (d : Device α) (w : W) : Device α × W :=
  let s := setV d.core 1 0.8
  let s := setV s 2 0.0
  let s := setV s 3 0.0
  let s := { s with UgdPrev := Cplx.real (Cplx.sub (getV s 1) (getV s 2)) }
  let s := { s with UgsPrev := Cplx.real (Cplx.sub (getV s 1) (getV s 3)) }
  let Rs := s.prop.Rs
  let srcStep : Handle × W :=
    if Rs ≠ 0 then
      let r := h.splitResistance w d.rs "Rs" "source" 3
      (r.1, h.applyResistance r.2 r.1 Rs)
    else
      (d.rs, h.disableResistance w d.rs 2)
  let rs := srcStep.1
  let w := srcStep.2
  let Rd := s.prop.Rd
  let drnStep : Handle × W :=
    if Rd ≠ 0 then
      let r := h.splitResistance w d.rd "Rd" "drain" 2
      (r.1, h.applyResistance r.2 r.1 Rd)
    else
      (d.rd, h.disableResistance w d.rd 2)
  let rd := drnStep.1
  let w := drnStep.2
  ({ core := s, rs := rs, rd := rd, S := d.S }, w)

end InitDC

section CalcSP

variable {α : Type} [LinearOrderedField α]

/-- The accessor `circuit::setS`. -/
def setS (d : Device α) (r c : Nat) (v : Cplx α) : Device α :=
  { d with S := fun i j => if i = r ∧ j = c then v else d.S i j }

/-- The admittance matrix that `calcSP` builds (lines 59-72) from the
frequency and the six operating points. -/
def calcSP_y (m : Libm α) (frequency Cgd Cgs ggs ggd gds gm : α) : matrix α :=
  let Ygd := Cplx.rect ggd (2.0 * m.M_PI * frequency * Cgd)
  let Ygs := Cplx.rect ggs (2.0 * m.M_PI * frequency * Cgs)
  let Yds := Cplx.ofReal gds
  let y := matrix.new 3
  let y := y.set 1 1 (Cplx.add Ygd Ygs)
  let y := y.set 1 2 (Cplx.neg Ygd)
  let y := y.set 1 3 (Cplx.neg Ygs)
  let y := y.set 2 1 (Cplx.sub (Cplx.ofReal gm) Ygd)
  let y := y.set 2 2 (Cplx.add Ygd Yds)
  let y := y.set 2 3 (Cplx.sub (Cplx.neg Yds) (Cplx.ofReal gm))
  let y := y.set 3 1 (Cplx.sub (Cplx.neg Ygs) (Cplx.ofReal gm))
  let y := y.set 3 2 (Cplx.neg Yds)
  let y := y.set 3 3 (Cplx.add (Cplx.add Ygs Yds) (Cplx.ofReal gm))
  y

/-- The method `jfet::calcSP` (lines 51-84); `ytos` is the conversion of
`matrix.cpp`, which is not part of the sources at hand.  The result is `none`
when one of the six operating points has no value. -/
def calcSP (m : Libm α) (ytos : matrix α → matrix α) (d : Device α) (frequency : α) :
    Option (Device α) :=
  (getOperatingPoint d.core "Cgd").bind fun Cgd =>
  (getOperatingPoint d.core "Cgs").bind fun Cgs =>
  (getOperatingPoint d.core "ggs").bind fun ggs =>
  (getOperatingPoint d.core "ggd").bind fun ggd =>
  (getOperatingPoint d.core "gds").bind fun gds =>
  (getOperatingPoint d.core "gm").bind fun gm =>
    let y := calcSP_y m frequency Cgd Cgs ggs ggd gds gm
    let s := ytos y
    let d := setS d 1 1 (s.get 1 1)
    let d := setS d 1 2 (s.get 1 2)
    let d := setS d 1 3 (s.get 1 3)
    let d := setS d 2 1 (s.get 2 1)
    let d := setS d 2 2 (s.get 2 2)
    let d := setS d 2 3 (s.get 2 3)
    let d := setS d 3 1 (s.get 3 1)
    let d := setS d 3 2 (s.get 3 2)
    let d := setS d 3 3 (s.get 3 3)
    some d

end CalcSP

/-! ## `operatingpoint::findOperatingPoint` (`src/operatingpoint.cpp`) -/

/-- An object of the class `operatingpoint`: its name (`none` is `NULL`, as the
constructors leave it when no name is given) and its value.  The member `next`
is the rest of the chain, see `findOperatingPoint`. -/
structure operatingpoint (α : Type) where
  name : Option String
  value : α

/-- The method `operatingpoint::findOperatingPoint` (lines 91-96), run on a
chain of operating points given as the list of its nodes in the order of the
`next` pointers.  The result is `some (some (i, p))` when the method returns
the node `p`, the one at position `i` of the chain, `some none` when it returns
`NULL`, and `none` when it hands the `NULL` name of a node to `strcmp`, which
has no defined result. -/
def findOperatingPoint {α : Type} (n : String) :
    List (operatingpoint α) → Option (Option (Nat × operatingpoint α))
  | [] => some none
  | p :: rest =>
    match p.name with
    | none => none
    | some nm =>
      if nm = n then some (some (0, p))
      else (findOperatingPoint n rest).map (Option.map fun r => (r.1 + 1, r.2))

/-! ## Concrete objects for evaluating `initDC`, `calcSP` and the lookup -/

section SampleObjects

variable {α : Type} [LinearOrderedField α]

/-- The sample device as a `jfet` object, all node voltages zero: with the
series resistances `Rs` and `Rd`, the pointers `rs` and `rd`, and all
S-parameters zero. -/
def sampleObject (Rs Rd : α) (rs rd : Handle) : Device α :=
  { core :=
      { sampleDevice 0 0 0 with
        prop := { (sampleDevice (0 : α) 0 0).prop with Rs := Rs, Rd := Rd } }
    rs := rs
    rd := rd
    S := fun _ _ => Cplx.ofReal 0 }

/-- The sample device at `Vg = 0`, `Vd = 5`, `Vs = 0` as a `jfet` object whose
operating points hold values as a DC analysis leaves them there (rounded). -/
def sampleSmallSignal : Device α :=
  let s := sampleDevice 0 5 0
  let s := setOperatingPoint s "gm" 4e-3
  let s := setOperatingPoint s "gds" 0
  let s := setOperatingPoint s "Id" 4e-3
  let s := setOperatingPoint s "ggs" 3.87e-13
  let s := setOperatingPoint s "ggd" 0
  let s := setOperatingPoint s "Ugs" 0
  let s := setOperatingPoint s "Ugd" (-5)
  let s := setOperatingPoint s "Cgd" 4.08e-13
  let s := setOperatingPoint s "Cgs" 1e-12
  { core := s, rs := none, rd := none, S := fun _ _ => Cplx.ofReal 0 }

/-- A chain of three operating points, named `"gm"`, `"Id"` and `"gm"`. -/
def sampleChain : List (operatingpoint α) :=
  [⟨some "gm", 1⟩, ⟨some "Id", 2⟩, ⟨some "gm", 3⟩]

end SampleObjects

/-! ## Theorems -/

open Filter Topology

/-! ### What `calcDC` stores -/

section Stored

variable {α : Type} [LinearOrderedField α]

/-- The operating points `"Id"`, `"gm"` and `"gds"` that `calcDC` stores are
the three results of `channel` at the limited junction voltages, which are also
the new values of `UgsPrev` and `UgdPrev`. -/
theorem calcDC_stores_channel (c : Constants α) (m : Libm α)
    (pnVoltage : α → α → α → α → α) (s : Jfet α) :
    getOperatingPoint (calcDC c m pnVoltage s) "Id"
        = some (channel s.prop.Vt0 s.prop.Lambda s.prop.Beta
            (limitedUgs c m pnVoltage s) (limitedUgd c m pnVoltage s)).Ids ∧
      getOperatingPoint (calcDC c m pnVoltage s) "gm"
        = some (channel s.prop.Vt0 s.prop.Lambda s.prop.Beta
            (limitedUgs c m pnVoltage s) (limitedUgd c m pnVoltage s)).gm ∧
      getOperatingPoint (calcDC c m pnVoltage s) "gds"
        = some (channel s.prop.Vt0 s.prop.Lambda s.prop.Beta
            (limitedUgs c m pnVoltage s) (limitedUgd c m pnVoltage s)).gds ∧
      (calcDC c m pnVoltage s).UgsPrev = limitedUgs c m pnVoltage s ∧
      (calcDC c m pnVoltage s).UgdPrev = limitedUgd c m pnVoltage s := by
  refine ⟨?_, ?_, ?_, ?_, ?_⟩ <;>
    simp [calcDC, getOperatingPoint, setOperatingPoint, setI, setY, limitedUgs, limitedUgd]

/-- The two spellings of the thermal voltage, `T * kB / Q` in `calcDC` and
`kB * T / Q` in `calcOperatingPoints`, are the same number. -/
theorem thermalVoltageOP_eq (c : Constants α) : thermalVoltageOP c = thermalVoltage c := by
  simp only [thermalVoltageOP, thermalVoltage]
  ring

end Stored

/-! ### The channel equations of `calcDC` -/

section ChannelTheorems

variable {α : Type} [LinearOrderedField α]

/-- In `channel` the drain-source voltage of the operating point
`(Ugs, Ugs - Uds)` is `Uds`. -/
theorem channel_of_Uds (Vt0 l beta Ugs Uds : α) :
    channel Vt0 l beta Ugs (Ugs - Uds) =
      if Uds ≥ 0 then normalMode Vt0 l beta Ugs Uds
      else inverseMode Vt0 l beta (Ugs - Uds) Uds := by
  simp only [channel, sub_sub_cancel]

/-- C1 (as stated, refuted): with `Ugs = -3`, `Vt0 = -2` (so `Ugst = -1 < 0`),
`Ugd = 0`, `Beta = 1`, `Lambda = 0` the device is in inverse mode
(`Uds = -3 < 0`) with `Ugdt = 2`, and the channel evaluation of `calcDC` gives
`Ids = -4`, `gm = -4`, `gds = 4`, none of them zero. -/
theorem channel_cutoff_any_Uds_counterexample :
    ((-3 : ℚ) - (-2) < 0) ∧
      (channel (-2 : ℚ) 0 1 (-3) 0).Ids = -4 ∧
      (channel (-2 : ℚ) 0 1 (-3) 0).gm = -4 ∧
      (channel (-2 : ℚ) 0 1 (-3) 0).gds = 4 ∧
      ¬ ((channel (-2 : ℚ) 0 1 (-3) 0).Ids = 0 ∧
          (channel (-2 : ℚ) 0 1 (-3) 0).gm = 0 ∧
          (channel (-2 : ℚ) 0 1 (-3) 0).gds = 0) := by
  norm_num [channel, inverseMode, inverseSat]

/-- C1 (amended): cutoff is decided by the overdrive of the mode that `Uds`
selects.  If `Uds = Ugs - Ugd >= 0` and `Ugst = Ugs - Vt0 < 0`, or if `Uds < 0`
and `Ugdt = Ugd - Vt0 < 0`, the channel evaluation of `calcDC` yields
`Ids = 0`, `gm = 0` and `gds = 0` exactly. -/
theorem channel_cutoff (Vt0 l beta Ugs Ugd : α)
    (h : (Ugs - Ugd ≥ 0 ∧ Ugs - Vt0 < 0) ∨ (Ugs - Ugd < 0 ∧ Ugd - Vt0 < 0)) :
    (channel Vt0 l beta Ugs Ugd).Ids = 0 ∧
      (channel Vt0 l beta Ugs Ugd).gm = 0 ∧
      (channel Vt0 l beta Ugs Ugd).gds = 0 := by
  rcases h with ⟨h1, h2⟩ | ⟨h1, h2⟩
  · simp [channel, normalMode, h1, h2]
  · simp [channel, inverseMode, not_le.mpr h1, h2]

/-- C1 (witness): `Ugs = -3`, `Vt0 = -2` at `Ugd = -5` (`Uds = 2`), with
`Beta = 1/1000` and `Lambda = 1/10`. -/
theorem channel_cutoff_witness :
    (((-3 : ℚ) - (-5) ≥ 0 ∧ (-3 : ℚ) - (-2) < 0) ∨
        ((-3 : ℚ) - (-5) < 0 ∧ (-5 : ℚ) - (-2) < 0)) ∧
      (channel (-2 : ℚ) (1 / 10) (1 / 1000) (-3) (-5)).Ids = 0 ∧
      (channel (-2 : ℚ) (1 / 10) (1 / 1000) (-3) (-5)).gm = 0 ∧
      (channel (-2 : ℚ) (1 / 10) (1 / 1000) (-3) (-5)).gds = 0 :=
  ⟨Or.inl ⟨by norm_num, by norm_num⟩,
    channel_cutoff (-2) (1 / 10) (1 / 1000) (-3) (-5) (Or.inl ⟨by norm_num, by norm_num⟩)⟩


/-- C4: normal-mode saturation.  For `Uds = Ugs - Ugd >= 0` and
`0 <= Ugst <= Uds` (`Ugst = Ugs - Vt0`) the channel evaluation of `calcDC`
yields `Ids = b * Ugst^2`, `gm = 2 * b * Ugst` and `gds = Lambda * b * Ugst^2`
with `b = Beta * (1 + Lambda * Uds)`; with `Lambda = 0` it yields
`Ids = Beta * Ugst^2`, `gm = 2 * Beta * Ugst` and `gds = 0`. -/
theorem channel_normal_saturation (Vt0 l beta Ugs Ugd : α)
    (hU : Ugs - Ugd ≥ 0) (h0 : 0 ≤ Ugs - Vt0) (h1 : Ugs - Vt0 ≤ Ugs - Ugd) :
    ((channel Vt0 l beta Ugs Ugd).Ids
          = beta * (1 + l * (Ugs - Ugd)) * (Ugs - Vt0) ^ 2 ∧
        (channel Vt0 l beta Ugs Ugd).gm
          = 2 * (beta * (1 + l * (Ugs - Ugd))) * (Ugs - Vt0) ∧
        (channel Vt0 l beta Ugs Ugd).gds
          = l * (beta * (1 + l * (Ugs - Ugd))) * (Ugs - Vt0) ^ 2) ∧
      (l = 0 →
        (channel Vt0 l beta Ugs Ugd).Ids = beta * (Ugs - Vt0) ^ 2 ∧
        (channel Vt0 l beta Ugs Ugd).gm = 2 * beta * (Ugs - Vt0) ∧
        (channel Vt0 l beta Ugs Ugd).gds = 0) := by
  have e : channel Vt0 l beta Ugs Ugd = normalSat l beta (Ugs - Vt0) (Ugs - Ugd) := by
    simp [channel, normalMode, hU, not_lt.mpr h0, h1]
  rw [e]
  refine ⟨⟨?_, ?_, ?_⟩, ?_⟩
  · simp only [normalSat]; ring
  · simp only [normalSat]; ring
  · simp only [normalSat]; ring
  · intro hl
    subst hl
    refine ⟨?_, ?_, ?_⟩ <;> simp only [normalSat] <;> ring

/-- C4 (witness): the scenario `Vt0 = -2`, `Beta = 1e-3`, `Lambda = 0`,
`Ugs = 0`, `Ugd = -5` is in normal-mode saturation and gives `Ids = 4e-3`,
`gm = 4e-3`, `gds = 0`. -/
theorem channel_normal_saturation_witness :
    ((0 : ℚ) - (-5) ≥ 0 ∧ (0 : ℚ) ≤ 0 - (-2) ∧ (0 : ℚ) - (-2) ≤ 0 - (-5)) ∧
      (channel (-2 : ℚ) 0 (1 / 1000) 0 (-5)).Ids = 4 / 1000 ∧
      (channel (-2 : ℚ) 0 (1 / 1000) 0 (-5)).gm = 4 / 1000 ∧
      (channel (-2 : ℚ) 0 (1 / 1000) 0 (-5)).gds = 0 := by
  obtain ⟨hI, hm, hd⟩ :=
    (channel_normal_saturation (-2 : ℚ) 0 (1 / 1000) 0 (-5)
      (by norm_num) (by norm_num) (by norm_num)).2 rfl
  refine ⟨⟨by norm_num, by norm_num, by norm_num⟩, ?_, ?_, hd⟩
  · rw [hI]; norm_num
  · rw [hm]; norm_num

/-- C3 (the code at the failing input): at `Vt0 = -2`, `Beta = 1e-3`,
`Lambda = 1/10`, `Ugs = 0`, `Ugd = -2`, on the boundary `Ugst = Uds = 2` between
normal-mode saturation and the linear region, `calcDC` (which takes the
saturation branch there) computes `gds = 4.8e-4`, while the linear-region
formula gives `gds = 4.0e-4` at the same point. -/
theorem normal_saturation_gds_boundary_mismatch :
    ((0 : ℚ) - (-2) ≥ 0 ∧ (0 : ℚ) - (-2) = 0 - (-2)) ∧
      (channel (-2 : ℚ) (1 / 10) (1 / 1000) 0 (-2)).gds = 48 / 100000 ∧
      (normalSat (1 / 10 : ℚ) (1 / 1000) 2 2).gds = 48 / 100000 ∧
      (normalLin (1 / 10 : ℚ) (1 / 1000) 2 2).gds = 40 / 100000 := by
  norm_num [channel, normalMode, normalSat, normalLin]

/-- What does hold on the region boundaries: in normal mode at `Ugst = Uds = U`
the saturation and the linear formulas give the same `Ids` and the same `gm`,
and their `gds` differ by `Lambda^2 * Beta * U^3`; in inverse mode at
`Ugdt = -Uds = U` they give the same `Ids`, `gm` and `gds`; at zero overdrive
the saturation formulas of both modes give `Ids = gm = gds = 0`. -/
theorem region_boundary_agreement (l beta U : α) :
    ((normalSat l beta U U).Ids = (normalLin l beta U U).Ids ∧
      (normalSat l beta U U).gm = (normalLin l beta U U).gm ∧
      (normalSat l beta U U).gds = (normalLin l beta U U).gds + l ^ 2 * beta * U ^ 3) ∧
    (inverseSat l beta U (-U) = inverseLin l beta U (-U)) ∧
    (∀ Uds, normalSat l beta 0 Uds = ⟨0, 0, 0⟩) ∧
    (∀ Uds, inverseSat l beta 0 Uds = ⟨0, 0, 0⟩) := by
  refine ⟨⟨?_, ?_, ?_⟩, ?_, ?_, ?_⟩
  · simp only [normalSat, normalLin]; ring
  · simp only [normalSat, normalLin]
  · simp only [normalSat, normalLin]; ring
  · simp only [inverseSat, inverseLin, Channel.mk.injEq]
    refine ⟨by ring, by ring, by ring⟩
  · intro Uds; simp [normalSat]
  · intro Uds; simp [inverseSat]

/-- C6: source/drain mirror.  The channel current computed by `calcDC` changes
sign when the two junction voltages are exchanged,
`Ids(Ugs, Ugd) = -Ids(Ugd, Ugs)`, and it is zero when `Uds = 0`, that is when
`Ugd = Ugs`. -/
theorem channel_antisymmetric (Vt0 l beta Ugs Ugd : α) :
    (channel Vt0 l beta Ugs Ugd).Ids = -(channel Vt0 l beta Ugd Ugs).Ids ∧
      (channel Vt0 l beta Ugs Ugs).Ids = 0 := by
  have hz : ∀ U : α, (channel Vt0 l beta U U).Ids = 0 := by
    intro U
    simp only [channel, sub_self, ge_iff_le, le_refl, if_true, normalMode]
    split_ifs with h1 h2
    · rfl
    · have : U - Vt0 = 0 := le_antisymm h2 (not_lt.mp h1)
      simp [normalSat, this]
    · simp [normalLin]
  have hpos : ∀ a b : α, 0 < a - b →
      (channel Vt0 l beta a b).Ids = -(channel Vt0 l beta b a).Ids := by
    intro a b hab
    have h1 : a - b ≥ 0 := hab.le
    have h2 : ¬ (b - a ≥ 0) := by
      intro h; have : b - a ≥ 0 := h; linarith
    have h3 : -(b - a) = a - b := by ring
    simp only [channel, h1, h2, if_true, if_false, normalMode, inverseMode, h3]
    split_ifs
    · simp
    · simp only [normalSat, inverseSat]; ring
    · simp only [normalLin, inverseLin]; ring
  refine ⟨?_, hz Ugs⟩
  rcases lt_trichotomy (Ugs - Ugd) 0 with h | h | h
  · have := hpos Ugd Ugs (by linarith)
    rw [this, neg_neg]
  · have e : Ugs = Ugd := sub_eq_zero.mp h
    subst e
    rw [hz Ugs, neg_zero]
  · exact hpos Ugs Ugd h

end ChannelTheorems

/-! ### Limits and derivatives of the channel equations -/

/-- A channel-valued function that agrees, on a member `t` of the filter `F`,
with a function `g` whose components are continuous and whose value at `0` is
`v`, tends to `v` componentwise along `F ≤ 𝓝 0`. -/
theorem channel_tendsto_of_eqOn {F : Filter ℝ} (hF : F ≤ 𝓝 0) {t : Set ℝ} (ht : t ∈ F)
    (f g : ℝ → Channel ℝ) (v : Channel ℝ) (hfg : ∀ u ∈ t, f u = g u)
    (hI : Continuous fun u => (g u).Ids) (hm : Continuous fun u => (g u).gm)
    (hd : Continuous fun u => (g u).gds) (h0 : g 0 = v) :
    Tendsto (fun u => (f u).Ids) F (𝓝 v.Ids) ∧
      Tendsto (fun u => (f u).gm) F (𝓝 v.gm) ∧
      Tendsto (fun u => (f u).gds) F (𝓝 v.gds) := by
  have key : ∀ p : Channel ℝ → ℝ, Continuous (fun u => p (g u)) →
      Tendsto (fun u => p (f u)) F (𝓝 (p v)) := by
    intro p hp
    have h1 : Tendsto (fun u => p (g u)) F (𝓝 (p (g 0))) :=
      (hp.tendsto 0).mono_left hF
    rw [h0] at h1
    refine h1.congr' (eventually_of_mem ht ?_)
    intro u hu
    show p (g u) = p (f u)
    rw [hfg u hu]
  exact ⟨key _ hI, key _ hm, key _ hd⟩

/-- The three results of `channel`, as functions of `Uds` at fixed `Ugs`
(`Ugd = Ugs - Uds`), tend to their values at `Uds = 0` as `Uds` tends to `0`
from above, where `calcDC` takes the normal-mode branch. -/
theorem channel_tendsto_Uds_zero_right (Vt0 l beta Ugs : ℝ) :
    Tendsto (fun u => (channel Vt0 l beta Ugs (Ugs - u)).Ids) (𝓝[>] 0)
        (𝓝 (channel Vt0 l beta Ugs Ugs).Ids) ∧
      Tendsto (fun u => (channel Vt0 l beta Ugs (Ugs - u)).gm) (𝓝[>] 0)
        (𝓝 (channel Vt0 l beta Ugs Ugs).gm) ∧
      Tendsto (fun u => (channel Vt0 l beta Ugs (Ugs - u)).gds) (𝓝[>] 0)
        (𝓝 (channel Vt0 l beta Ugs Ugs).gds) := by
  rcases lt_trichotomy (Ugs - Vt0) 0 with h | h | h
  · refine channel_tendsto_of_eqOn nhdsWithin_le_nhds self_mem_nhdsWithin _
      (fun _ => ⟨0, 0, 0⟩) _ ?_ continuous_const continuous_const continuous_const ?_
    · intro u hu
      have hu' : (0 : ℝ) ≤ u := le_of_lt hu
      simp [channel_of_Uds, normalMode, h, hu']
    · simp [channel, normalMode, h]
  · refine channel_tendsto_of_eqOn nhdsWithin_le_nhds self_mem_nhdsWithin _
      (fun _ => ⟨0, 0, 0⟩) _ ?_ continuous_const continuous_const continuous_const ?_
    · intro u hu
      have hu' : (0 : ℝ) ≤ u := le_of_lt hu
      simp [channel_of_Uds, normalMode, normalSat, h, hu']
    · simp [channel, normalMode, normalSat, h]
  · refine channel_tendsto_of_eqOn nhdsWithin_le_nhds
      (Ioo_mem_nhdsWithin_Ioi' h) _
      (fun u => normalLin l beta (Ugs - Vt0) u) _ ?_ ?_ ?_ ?_ ?_
    · intro u hu
      have hu' : (0 : ℝ) ≤ u := le_of_lt hu.1
      simp [channel_of_Uds, normalMode, not_lt.mpr h.le, not_le.mpr hu.2, hu']
    · simp only [normalLin]; fun_prop
    · simp only [normalLin]; fun_prop
    · simp only [normalLin]; fun_prop
    · simp [channel, normalMode, not_lt.mpr h.le, not_le.mpr h]

/-- The three results of `channel`, as functions of `Uds` at fixed `Ugs`
(`Ugd = Ugs - Uds`), tend to their values at `Uds = 0` as `Uds` tends to `0`
from below, where `calcDC` takes the inverse-mode branch. -/
theorem channel_tendsto_Uds_zero_left (Vt0 l beta Ugs : ℝ) :
    Tendsto (fun u => (channel Vt0 l beta Ugs (Ugs - u)).Ids) (𝓝[<] 0)
        (𝓝 (channel Vt0 l beta Ugs Ugs).Ids) ∧
      Tendsto (fun u => (channel Vt0 l beta Ugs (Ugs - u)).gm) (𝓝[<] 0)
        (𝓝 (channel Vt0 l beta Ugs Ugs).gm) ∧
      Tendsto (fun u => (channel Vt0 l beta Ugs (Ugs - u)).gds) (𝓝[<] 0)
        (𝓝 (channel Vt0 l beta Ugs Ugs).gds) := by
  rcases lt_trichotomy (Ugs - Vt0) 0 with h | h | h
  · refine channel_tendsto_of_eqOn nhdsWithin_le_nhds (Ioo_mem_nhdsWithin_Iio' h) _
      (fun _ => ⟨0, 0, 0⟩) _ ?_ continuous_const continuous_const continuous_const ?_
    · intro u hu
      have h1 : ¬ (0 : ℝ) ≤ u := not_le.mpr hu.2
      have h2 : Ugs - u - Vt0 < 0 := by linarith [hu.1]
      simp [channel_of_Uds, inverseMode, h1, h2]
    · simp [channel, normalMode, h]
  · refine channel_tendsto_of_eqOn nhdsWithin_le_nhds self_mem_nhdsWithin _
      (fun u => inverseSat l beta (-u) u) _ ?_ ?_ ?_ ?_ ?_
    · intro u hu
      have h1 : ¬ (0 : ℝ) ≤ u := not_le.mpr hu
      have h2 : Ugs - u - Vt0 = -u := by linarith
      have h3 : ¬ (-u < 0) := by simpa using le_of_lt hu
      simp [channel_of_Uds, inverseMode, h1, h2, h3]
    · simp only [inverseSat]; fun_prop
    · simp only [inverseSat]; fun_prop
    · simp only [inverseSat]; fun_prop
    · simp [channel, normalMode, normalSat, inverseSat, h]
  · refine channel_tendsto_of_eqOn nhdsWithin_le_nhds self_mem_nhdsWithin _
      (fun u => inverseLin l beta (Ugs - u - Vt0) u) _ ?_ ?_ ?_ ?_ ?_
    · intro u hu
      have h1 : ¬ (0 : ℝ) ≤ u := not_le.mpr hu
      have h2 : ¬ (Ugs - u - Vt0 < 0) := by
        have : u < 0 := hu
        linarith
      have h3 : ¬ (Ugs - u - Vt0 ≤ -u) := by linarith
      simp [channel_of_Uds, inverseMode, h1, h2, h3]
    · simp only [inverseLin]; fun_prop
    · simp only [inverseLin]; fun_prop
    · simp only [inverseLin]; fun_prop
    · have e : channel Vt0 l beta Ugs Ugs = normalLin l beta (Ugs - Vt0) 0 := by
        simp [channel, normalMode, not_lt.mpr h.le, not_le.mpr h]
      rw [e]
      simp only [normalLin, inverseLin, sub_zero, Channel.mk.injEq]
      refine ⟨by ring, by ring, by ring⟩

/-- C2: continuity at `Uds = 0`.  For fixed `Ugs`, `Vt0`, `Beta`, `Lambda` and
`Ugd = Ugs - Uds`, each of `Ids`, `gm`, `gds` computed by `calcDC` for `Uds > 0`
(normal-mode branch) tends, as `Uds` tends to `0` from above, to the value
computed at `Uds = 0`, and each of them computed for `Uds < 0` (inverse-mode
branch) tends to the same value as `Uds` tends to `0` from below. -/
theorem channel_continuous_at_Uds_zero (Vt0 l beta Ugs : ℝ) :
    (Tendsto (fun Uds => (channel Vt0 l beta Ugs (Ugs - Uds)).Ids) (𝓝[>] 0)
        (𝓝 (channel Vt0 l beta Ugs Ugs).Ids) ∧
      Tendsto (fun Uds => (channel Vt0 l beta Ugs (Ugs - Uds)).Ids) (𝓝[<] 0)
        (𝓝 (channel Vt0 l beta Ugs Ugs).Ids)) ∧
    (Tendsto (fun Uds => (channel Vt0 l beta Ugs (Ugs - Uds)).gm) (𝓝[>] 0)
        (𝓝 (channel Vt0 l beta Ugs Ugs).gm) ∧
      Tendsto (fun Uds => (channel Vt0 l beta Ugs (Ugs - Uds)).gm) (𝓝[<] 0)
        (𝓝 (channel Vt0 l beta Ugs Ugs).gm)) ∧
    (Tendsto (fun Uds => (channel Vt0 l beta Ugs (Ugs - Uds)).gds) (𝓝[>] 0)
        (𝓝 (channel Vt0 l beta Ugs Ugs).gds) ∧
      Tendsto (fun Uds => (channel Vt0 l beta Ugs (Ugs - Uds)).gds) (𝓝[<] 0)
        (𝓝 (channel Vt0 l beta Ugs Ugs).gds)) := by
  obtain ⟨r1, r2, r3⟩ := channel_tendsto_Uds_zero_right Vt0 l beta Ugs
  obtain ⟨l1, l2, l3⟩ := channel_tendsto_Uds_zero_left Vt0 l beta Ugs
  exact ⟨⟨r1, l1⟩, ⟨r2, l2⟩, ⟨r3, l3⟩⟩


/-- C5: linear-region derivatives.  Strictly inside the linear region, in
normal mode (`0 < Uds < Ugst`) and in inverse mode (`Uds < 0`,
`-Uds < Ugdt = Ugs - Uds - Vt0`), the `gm` computed by `calcDC` is the
derivative of `Ids` with respect to `Ugs` at fixed `Uds`, and the `gds`
computed is the derivative of `Ids` with respect to `Uds` at fixed `Ugs`
(with `Ugd = Ugs - Uds` throughout). -/
theorem channel_linear_derivatives (Vt0 l beta Ugs Uds : ℝ)
    (h : (0 < Uds ∧ Uds < Ugs - Vt0) ∨ (Uds < 0 ∧ -Uds < Ugs - Uds - Vt0)) :
    HasDerivAt (fun x => (channel Vt0 l beta x (x - Uds)).Ids)
        (channel Vt0 l beta Ugs (Ugs - Uds)).gm Ugs ∧
      HasDerivAt (fun u => (channel Vt0 l beta Ugs (Ugs - u)).Ids)
        (channel Vt0 l beta Ugs (Ugs - Uds)).gds Uds := by
  rcases h with ⟨h1, h2⟩ | ⟨h1, h2⟩
  · -- normal mode
    have e : ∀ x u : ℝ, 0 < u → u < x - Vt0 →
        channel Vt0 l beta x (x - u) = normalLin l beta (x - Vt0) u := by
      intro x u hu hx
      have a1 : ¬ (x - Vt0 < 0) := by linarith
      have a2 : ¬ (x - Vt0 ≤ u) := by linarith
      simp [channel_of_Uds, normalMode, hu.le, a1, a2]
    rw [e Ugs Uds h1 h2]
    constructor
    · have hd : HasDerivAt (fun x : ℝ => (normalLin l beta (x - Vt0) Uds).Ids)
          (normalLin l beta (Ugs - Vt0) Uds).gm Ugs := by
        simp only [normalLin]
        have d1 : HasDerivAt (fun x : ℝ => 2 * (x - Vt0) - Uds) 2 Ugs := by
          simpa using (((hasDerivAt_id Ugs).sub_const Vt0).const_mul 2).sub_const Uds
        exact (d1.const_mul (beta * (1 + l * Uds) * Uds)).congr_deriv (by ring)
      refine hd.congr_of_eventuallyEq (eventually_of_mem (Ioi_mem_nhds
        (show Uds + Vt0 < Ugs by linarith)) ?_)
      intro x hx
      have hx' : Uds + Vt0 < x := hx
      show (channel Vt0 l beta x (x - Uds)).Ids = _
      rw [e x Uds h1 (by linarith)]
    · have hd : HasDerivAt (fun u : ℝ => (normalLin l beta (Ugs - Vt0) u).Ids)
          (normalLin l beta (Ugs - Vt0) Uds).gds Uds := by
        simp only [normalLin]
        have d1 : HasDerivAt (fun u : ℝ => beta * (1 + l * u)) (beta * l) Uds := by
          simpa using (((hasDerivAt_id Uds).const_mul l).const_add 1).const_mul beta
        have d2 : HasDerivAt (fun u : ℝ => u) 1 Uds := hasDerivAt_id Uds
        have d3 : HasDerivAt (fun u : ℝ => 2 * (Ugs - Vt0) - u) (-1) Uds := by
          simpa using (hasDerivAt_id Uds).const_sub (2 * (Ugs - Vt0))
        exact ((d1.mul d2).mul d3).congr_deriv (by ring)
      refine hd.congr_of_eventuallyEq (eventually_of_mem (Ioo_mem_nhds h1 h2) ?_)
      intro u hu
      show (channel Vt0 l beta Ugs (Ugs - u)).Ids = _
      rw [e Ugs u hu.1 hu.2]
  · -- inverse mode
    have e : ∀ x u : ℝ, u < 0 → 0 < x - Vt0 →
        channel Vt0 l beta x (x - u) = inverseLin l beta (x - u - Vt0) u := by
      intro x u hu hx
      have a0 : ¬ (0 ≤ u) := by linarith
      have a1 : ¬ (x - u - Vt0 < 0) := by linarith
      have a2 : ¬ (x - u - Vt0 ≤ -u) := by linarith
      simp [channel_of_Uds, inverseMode, a0, a1, a2]
    have h3 : 0 < Ugs - Vt0 := by linarith
    rw [e Ugs Uds h1 h3]
    constructor
    · have hd : HasDerivAt (fun x : ℝ => (inverseLin l beta (x - Uds - Vt0) Uds).Ids)
          (inverseLin l beta (Ugs - Uds - Vt0) Uds).gm Ugs := by
        simp only [inverseLin]
        have d1 : HasDerivAt (fun x : ℝ => 2 * (x - Uds - Vt0) + Uds) 2 Ugs := by
          simpa using
            ((((hasDerivAt_id Ugs).sub_const Uds).sub_const Vt0).const_mul 2).add_const Uds
        exact (d1.const_mul (beta * (1 - l * Uds) * Uds)).congr_deriv (by ring)
      refine hd.congr_of_eventuallyEq (eventually_of_mem (Ioi_mem_nhds
        (show Vt0 < Ugs by linarith)) ?_)
      intro x hx
      have hx' : Vt0 < x := hx
      show (channel Vt0 l beta x (x - Uds)).Ids = _
      rw [e x Uds h1 (by linarith)]
    · have hd : HasDerivAt (fun u : ℝ => (inverseLin l beta (Ugs - u - Vt0) u).Ids)
          (inverseLin l beta (Ugs - Uds - Vt0) Uds).gds Uds := by
        simp only [inverseLin]
        have d1 : HasDerivAt (fun u : ℝ => beta * (1 - l * u)) (beta * -l) Uds := by
          simpa using (((hasDerivAt_id Uds).const_mul l).const_sub 1).const_mul beta
        have d2 : HasDerivAt (fun u : ℝ => u) 1 Uds := hasDerivAt_id Uds
        have d3 : HasDerivAt (fun u : ℝ => 2 * (Ugs - u - Vt0) + u) (-1) Uds := by
          have := (((((hasDerivAt_id Uds).const_sub Ugs).sub_const Vt0).const_mul 2).add
            (hasDerivAt_id Uds))
          exact this.congr_deriv (by norm_num)
        exact ((d1.mul d2).mul d3).congr_deriv (by ring)
      refine hd.congr_of_eventuallyEq (eventually_of_mem (Iio_mem_nhds h1) ?_)
      intro u hu
      have hu' : u < 0 := hu
      show (channel Vt0 l beta Ugs (Ugs - u)).Ids = _
      rw [e Ugs u hu' h3]


/-- C5 (witness): `Vt0 = -2`, `Lambda = 1/10`, `Beta = 1/1000`, `Ugs = 0`,
`Uds = 1` lies strictly inside the normal-mode linear region
(`0 < 1 < Ugst = 2`). -/
theorem channel_linear_derivatives_witness :
    (((0 : ℝ) < 1 ∧ (1 : ℝ) < 0 - (-2)) ∨ ((1 : ℝ) < 0 ∧ -(1 : ℝ) < 0 - 1 - (-2))) ∧
      HasDerivAt (fun x => (channel (-2 : ℝ) (1 / 10) (1 / 1000) x (x - 1)).Ids)
        (channel (-2 : ℝ) (1 / 10) (1 / 1000) 0 (0 - 1)).gm 0 ∧
      HasDerivAt (fun u => (channel (-2 : ℝ) (1 / 10) (1 / 1000) 0 (0 - u)).Ids)
        (channel (-2 : ℝ) (1 / 10) (1 / 1000) 0 (0 - 1)).gds 1 :=
  ⟨Or.inl ⟨by norm_num, by norm_num⟩,
    channel_linear_derivatives (-2) (1 / 10) (1 / 1000) 0 1
      (Or.inl ⟨by norm_num, by norm_num⟩)⟩

/-! ### The stamps of `calcDC` and the extraction of `calcOperatingPoints` -/

section StampTheorems

variable {α : Type} [LinearOrderedField α]

/-- C7: Kirchhoff current balance of the companion model.  For every input of
`calcDC` and every terminal-voltage vector `(v1, v2, v3)` the three components
of `Y * V - I` sum to zero, the three stamped currents sum to zero, and each of
the three columns of the stamped conductance matrix sums to zero. -/
theorem calcDC_kirchhoff (c : Constants α) (m : Libm α) (pnVoltage : α → α → α → α → α)
    (s : Jfet α) :
    (∀ v1 v2 v3 : α,
        (((calcDC c m pnVoltage s).Y 1 1 * v1 + (calcDC c m pnVoltage s).Y 1 2 * v2
            + (calcDC c m pnVoltage s).Y 1 3 * v3) - (calcDC c m pnVoltage s).I 1)
          + (((calcDC c m pnVoltage s).Y 2 1 * v1 + (calcDC c m pnVoltage s).Y 2 2 * v2
            + (calcDC c m pnVoltage s).Y 2 3 * v3) - (calcDC c m pnVoltage s).I 2)
          + (((calcDC c m pnVoltage s).Y 3 1 * v1 + (calcDC c m pnVoltage s).Y 3 2 * v2
            + (calcDC c m pnVoltage s).Y 3 3 * v3) - (calcDC c m pnVoltage s).I 3) = 0) ∧
      (calcDC c m pnVoltage s).I 1 + (calcDC c m pnVoltage s).I 2
          + (calcDC c m pnVoltage s).I 3 = 0 ∧
      (calcDC c m pnVoltage s).Y 1 1 + (calcDC c m pnVoltage s).Y 2 1
          + (calcDC c m pnVoltage s).Y 3 1 = 0 ∧
      (calcDC c m pnVoltage s).Y 1 2 + (calcDC c m pnVoltage s).Y 2 2
          + (calcDC c m pnVoltage s).Y 3 2 = 0 ∧
      (calcDC c m pnVoltage s).Y 1 3 + (calcDC c m pnVoltage s).Y 2 3
          + (calcDC c m pnVoltage s).Y 3 3 = 0 := by
  refine ⟨?_, ?_, ?_, ?_, ?_⟩
  · intro v1 v2 v3
    simp only [calcDC, setY, setI, setOperatingPoint]
    norm_num
    ring
  all_goals
    simp only [calcDC, setY, setI, setOperatingPoint]
    norm_num
    try ring

/-- C8: each of the three rows of the conductance matrix stamped by `calcDC`
sums to zero, for every input of `calcDC` (whatever the values of `ggs`, `ggd`,
`gm` and `gds` are, all zero included). -/
theorem calcDC_rows_sum_zero (c : Constants α) (m : Libm α)
    (pnVoltage : α → α → α → α → α) (s : Jfet α) :
    (calcDC c m pnVoltage s).Y 1 1 + (calcDC c m pnVoltage s).Y 1 2
        + (calcDC c m pnVoltage s).Y 1 3 = 0 ∧
      (calcDC c m pnVoltage s).Y 2 1 + (calcDC c m pnVoltage s).Y 2 2
        + (calcDC c m pnVoltage s).Y 2 3 = 0 ∧
      (calcDC c m pnVoltage s).Y 3 1 + (calcDC c m pnVoltage s).Y 3 2
        + (calcDC c m pnVoltage s).Y 3 3 = 0 := by
  refine ⟨?_, ?_, ?_⟩ <;> simp [calcDC, setY, setI, setOperatingPoint] <;> ring

/-- C9 (as stated, refuted): with `Is = 1e-14`, `N = 1` and `U = -1`, which is
below `-10 * N * Ut` (`Ut` is about 0.0258), the junction conductance of
`calcOperatingPoints` differs from the junction conductance of the diode
evaluation of `calcDC` at the same voltage. -/
theorem extraction_conductance_deep_reverse_counterexample :
    ((0 : ℝ) < 1e-14 ∧ (0 : ℝ) < 1 ∧
        (-1 : ℝ) < -10 * 1 * thermalVoltage physicalConstants) ∧
      (opJunction (Libm.mk Real.exp Real.log (fun x y => x ^ y) (Real.sqrt 2) Real.pi)
          1e-14 (thermalVoltageOP physicalConstants) 1 (-1)).g ≠
        (dcJunction (Libm.mk Real.exp Real.log (fun x y => x ^ y) (Real.sqrt 2) Real.pi)
          1e-14 (thermalVoltage physicalConstants) 1 (-1)).g := by
  have hU : (-1 : ℝ) < -10 * thermalVoltage physicalConstants * 1 := by
    norm_num [thermalVoltage, physicalConstants]
  refine ⟨⟨by norm_num, by norm_num, by linarith⟩, ?_⟩
  rw [thermalVoltageOP_eq]
  simp only [opJunction, dcJunction, if_pos hU]
  intro h
  have : (1e-14 : ℝ) = 0 := by linarith
  norm_num at this

/-- C9 (amended): `calcOperatingPoints` stores as `"ggs"` (resp. `"ggd"`) the
exponential-law conductance `Is / Ut / n * exp (U / Ut / n)` at the raw
`Ugs` (resp. `Ugd`).  At every junction voltage `U` that is not below
`-10 * Ut * n` this is the junction conductance that the diode evaluation of
`calcDC` computes for `U`; at every `U` below `-10 * Ut * n` the conductance of
`calcDC` is larger by exactly `Is`. -/
theorem calcOperatingPoints_conductance (c : Constants α) (m : Libm α) (s : Jfet α) (U : α) :
    (getOperatingPoint (calcOperatingPoints c m s) "ggs"
          = some (opJunction m s.prop.Is (thermalVoltageOP c) s.prop.N
              (Cplx.real (Cplx.sub (getV s 1) (getV s 3)))).g ∧
        getOperatingPoint (calcOperatingPoints c m s) "ggd"
          = some (opJunction m s.prop.Is (thermalVoltageOP c) s.prop.N
              (Cplx.real (Cplx.sub (getV s 1) (getV s 2)))).g) ∧
      (¬ U < -10 * thermalVoltage c * s.prop.N →
        (opJunction m s.prop.Is (thermalVoltageOP c) s.prop.N U).g
          = (dcJunction m s.prop.Is (thermalVoltage c) s.prop.N U).g) ∧
      (U < -10 * thermalVoltage c * s.prop.N →
        (dcJunction m s.prop.Is (thermalVoltage c) s.prop.N U).g
          = (opJunction m s.prop.Is (thermalVoltageOP c) s.prop.N U).g + s.prop.Is) := by
  refine ⟨⟨?_, ?_⟩, ?_, ?_⟩
  · simp [calcOperatingPoints, getOperatingPoint, setOperatingPoint]
  · simp [calcOperatingPoints, getOperatingPoint, setOperatingPoint]
  · intro h
    rw [thermalVoltageOP_eq]
    simp only [opJunction, dcJunction, if_neg h, add_zero]
  · intro h
    rw [thermalVoltageOP_eq]
    simp only [opJunction, dcJunction, if_pos h]

/-- C9 (witness): for the sample device, `U = 0` is not below `-10 * Ut * n` and
`U = -5` is. -/
theorem calcOperatingPoints_conductance_witness :
    (¬ (0 : ℝ) < -10 * thermalVoltage physicalConstants * (sampleDevice (0 : ℝ) 5 0).prop.N ∧
      (opJunction (Libm.mk Real.exp Real.log (fun x y => x ^ y) (Real.sqrt 2) Real.pi)
          (sampleDevice (0 : ℝ) 5 0).prop.Is (thermalVoltageOP physicalConstants)
          (sampleDevice (0 : ℝ) 5 0).prop.N 0).g
        = (dcJunction (Libm.mk Real.exp Real.log (fun x y => x ^ y) (Real.sqrt 2) Real.pi)
          (sampleDevice (0 : ℝ) 5 0).prop.Is (thermalVoltage physicalConstants)
          (sampleDevice (0 : ℝ) 5 0).prop.N 0).g) ∧
    ((-5 : ℝ) < -10 * thermalVoltage physicalConstants * (sampleDevice (0 : ℝ) 5 0).prop.N ∧
      (dcJunction (Libm.mk Real.exp Real.log (fun x y => x ^ y) (Real.sqrt 2) Real.pi)
          (sampleDevice (0 : ℝ) 5 0).prop.Is (thermalVoltage physicalConstants)
          (sampleDevice (0 : ℝ) 5 0).prop.N (-5)).g
        = (opJunction (Libm.mk Real.exp Real.log (fun x y => x ^ y) (Real.sqrt 2) Real.pi)
          (sampleDevice (0 : ℝ) 5 0).prop.Is (thermalVoltageOP physicalConstants)
          (sampleDevice (0 : ℝ) 5 0).prop.N (-5)).g + (sampleDevice (0 : ℝ) 5 0).prop.Is) := by
  have h0 : ¬ (0 : ℝ) < -10 * thermalVoltage physicalConstants
      * (sampleDevice (0 : ℝ) 5 0).prop.N := by
    norm_num [thermalVoltage, physicalConstants, sampleDevice]
  have h5 : (-5 : ℝ) < -10 * thermalVoltage physicalConstants
      * (sampleDevice (0 : ℝ) 5 0).prop.N := by
    norm_num [thermalVoltage, physicalConstants, sampleDevice]
  exact ⟨⟨h0, (calcOperatingPoints_conductance physicalConstants _ (sampleDevice 0 5 0) 0).2.1 h0⟩,
    ⟨h5, (calcOperatingPoints_conductance physicalConstants _ (sampleDevice 0 5 0) (-5)).2.2 h5⟩⟩

/-- C10: two-region capacitance law.  `calcOperatingPoints` stores as `"Cgd"`
the value `Cgd0 * pow (1 - Ugd / Pb, -M)` when `Ugd < 0` and
`Cgd0 * (1 + M * Ugd / Pb)` when `Ugd >= 0`, and as `"Cgs"` the value
`Cgs0 * pow (1 - Ugs / Pb, -M)` when `Ugs < 0` and
`Cgs0 * (1 + M * Ugs / Pb)` when `Ugs >= 0`, where `Cgd0`, `Cgs0` are the
parameters `Cgd`, `Cgs` and `Ugd`, `Ugs` the raw junction voltages. -/
theorem calcOperatingPoints_capacitance (c : Constants α) (m : Libm α) (s : Jfet α) :
    (Cplx.real (Cplx.sub (getV s 1) (getV s 2)) < 0 →
        getOperatingPoint (calcOperatingPoints c m s) "Cgd"
          = some (s.prop.Cgd *
              m.pow (1 - Cplx.real (Cplx.sub (getV s 1) (getV s 2)) / s.prop.Pb) (-s.prop.M))) ∧
      (Cplx.real (Cplx.sub (getV s 1) (getV s 2)) ≥ 0 →
        getOperatingPoint (calcOperatingPoints c m s) "Cgd"
          = some (s.prop.Cgd *
              (1 + s.prop.M * Cplx.real (Cplx.sub (getV s 1) (getV s 2)) / s.prop.Pb))) ∧
      (Cplx.real (Cplx.sub (getV s 1) (getV s 3)) < 0 →
        getOperatingPoint (calcOperatingPoints c m s) "Cgs"
          = some (s.prop.Cgs *
              m.pow (1 - Cplx.real (Cplx.sub (getV s 1) (getV s 3)) / s.prop.Pb) (-s.prop.M))) ∧
      (Cplx.real (Cplx.sub (getV s 1) (getV s 3)) ≥ 0 →
        getOperatingPoint (calcOperatingPoints c m s) "Cgs"
          = some (s.prop.Cgs *
              (1 + s.prop.M * Cplx.real (Cplx.sub (getV s 1) (getV s 3)) / s.prop.Pb))) := by
  refine ⟨?_, ?_, ?_, ?_⟩ <;> intro h
  · simp [calcOperatingPoints, getOperatingPoint, setOperatingPoint, opCapacitance, h]
  · simp [calcOperatingPoints, getOperatingPoint, setOperatingPoint, opCapacitance,
      not_lt.mpr h]
  · simp [calcOperatingPoints, getOperatingPoint, setOperatingPoint, opCapacitance, h]
  · simp [calcOperatingPoints, getOperatingPoint, setOperatingPoint, opCapacitance,
      not_lt.mpr h]


/-- C10 (witness): the sample device at `Vg = 0`, `Vd = 5`, `Vs = 0` has
`Ugd = -5 < 0` and `Ugs = 0 >= 0`, so `"Cgd"` follows the power law and `"Cgs"`
the linear law (`Cgs = Cgs0 = 1e-12`); at `Vg = 0`, `Vd = -1`, `Vs = 1` it has
`Ugd = 1 >= 0` and `Ugs = -1 < 0`, so `"Cgd"` follows the linear law
(`Cgd = 1e-12 * (1 + 1/2)`) and `"Cgs"` the power law. -/
theorem calcOperatingPoints_capacitance_witness :
    (Cplx.real (Cplx.sub (getV (sampleDevice (0 : ℝ) 5 0) 1)
          (getV (sampleDevice (0 : ℝ) 5 0) 2)) < 0 ∧
      getOperatingPoint (calcOperatingPoints physicalConstants
          (Libm.mk Real.exp Real.log (fun x y => x ^ y) (Real.sqrt 2) Real.pi)
          (sampleDevice (0 : ℝ) 5 0)) "Cgd" = some (1e-12 * (6 : ℝ) ^ (-(1 / 2 : ℝ)))) ∧
    (Cplx.real (Cplx.sub (getV (sampleDevice (0 : ℝ) 5 0) 1)
          (getV (sampleDevice (0 : ℝ) 5 0) 3)) ≥ 0 ∧
      getOperatingPoint (calcOperatingPoints physicalConstants
          (Libm.mk Real.exp Real.log (fun x y => x ^ y) (Real.sqrt 2) Real.pi)
          (sampleDevice (0 : ℝ) 5 0)) "Cgs" = some 1e-12) ∧
    (Cplx.real (Cplx.sub (getV (sampleDevice (0 : ℝ) (-1) 1) 1)
          (getV (sampleDevice (0 : ℝ) (-1) 1) 2)) ≥ 0 ∧
      getOperatingPoint (calcOperatingPoints physicalConstants
          (Libm.mk Real.exp Real.log (fun x y => x ^ y) (Real.sqrt 2) Real.pi)
          (sampleDevice (0 : ℝ) (-1) 1)) "Cgd" = some (1e-12 * (3 / 2))) ∧
    (Cplx.real (Cplx.sub (getV (sampleDevice (0 : ℝ) (-1) 1) 1)
          (getV (sampleDevice (0 : ℝ) (-1) 1) 3)) < 0 ∧
      getOperatingPoint (calcOperatingPoints physicalConstants
          (Libm.mk Real.exp Real.log (fun x y => x ^ y) (Real.sqrt 2) Real.pi)
          (sampleDevice (0 : ℝ) (-1) 1)) "Cgs" = some (1e-12 * (2 : ℝ) ^ (-(1 / 2 : ℝ)))) := by
  have a1 : Cplx.real (Cplx.sub (getV (sampleDevice (0 : ℝ) 5 0) 1)
      (getV (sampleDevice (0 : ℝ) 5 0) 2)) < 0 := by
    norm_num [sampleDevice, getV, Cplx.sub, Cplx.real, Cplx.ofReal]
  have a2 : Cplx.real (Cplx.sub (getV (sampleDevice (0 : ℝ) 5 0) 1)
      (getV (sampleDevice (0 : ℝ) 5 0) 3)) ≥ 0 := by
    norm_num [sampleDevice, getV, Cplx.sub, Cplx.real, Cplx.ofReal]
  have a3 : Cplx.real (Cplx.sub (getV (sampleDevice (0 : ℝ) (-1) 1) 1)
      (getV (sampleDevice (0 : ℝ) (-1) 1) 2)) ≥ 0 := by
    norm_num [sampleDevice, getV, Cplx.sub, Cplx.real, Cplx.ofReal]
  have a4 : Cplx.real (Cplx.sub (getV (sampleDevice (0 : ℝ) (-1) 1) 1)
      (getV (sampleDevice (0 : ℝ) (-1) 1) 3)) < 0 := by
    norm_num [sampleDevice, getV, Cplx.sub, Cplx.real, Cplx.ofReal]
  refine ⟨⟨a1, ?_⟩, ⟨a2, ?_⟩, ⟨a3, ?_⟩, ⟨a4, ?_⟩⟩
  · rw [(calcOperatingPoints_capacitance physicalConstants _ (sampleDevice 0 5 0)).1 a1]
    norm_num [sampleDevice, getV, Cplx.sub, Cplx.real, Cplx.ofReal]
  · rw [(calcOperatingPoints_capacitance physicalConstants _ (sampleDevice 0 5 0)).2.2.2 a2]
    norm_num [sampleDevice, getV, Cplx.sub, Cplx.real, Cplx.ofReal]
  · rw [(calcOperatingPoints_capacitance physicalConstants _ (sampleDevice 0 (-1) 1)).2.1 a3]
    norm_num [sampleDevice, getV, Cplx.sub, Cplx.real, Cplx.ofReal]
  · rw [(calcOperatingPoints_capacitance physicalConstants _ (sampleDevice 0 (-1) 1)).2.2.1 a4]
    norm_num [sampleDevice, getV, Cplx.sub, Cplx.real, Cplx.ofReal]

end StampTheorems

/-! ### Continuity of the capacitance law and the gate diodes -/

/-- The capacitance of `calcOperatingPoints` is one of the two branches, chosen
by the sign of the junction voltage. -/
theorem opCapacitance_eq_branches {α : Type} [LinearOrderedField α] (m : Libm α)
    (C0 z Pb U : α) :
    opCapacitance m C0 z Pb U
      = if U < 0 then capPowerLaw m C0 z Pb U else capLinear C0 z Pb U := rfl

/-- For a non-zero `Pb` the divisions of the capacitance law are divisions by
a non-zero number, and the real number computed is `opCapacitance`. -/
theorem opCapacitanceDefined_eq {α : Type} [LinearOrderedField α] (m : Libm α)
    (C0 z Pb U : α) (hPb : Pb ≠ 0) :
    opCapacitanceDefined m C0 z Pb U = some (opCapacitance m C0 z Pb U) := by
  by_cases hU : U < 0 <;>
    simp [opCapacitanceDefined, capPowerLawDefined, capLinearDefined, quotient, opCapacitance,
      hPb, hU]

/-- C11 (as stated, refuted): at `Pb = 0` (with `C0 = 1e-12`, `M = 1/2`) and
`U = 0` both branches of the capacitance law divide by zero, `0 / 0`: neither
the power-law branch nor the linear branch nor the capacitance of
`calcOperatingPoints` computes a real number there, so none of them
evaluates to `C0`. -/
theorem capacitance_at_zero_Pb_zero_counterexample :
    capPowerLawDefined (Libm.mk Real.exp Real.log (fun x y => x ^ y) (Real.sqrt 2) Real.pi)
        (1e-12 : ℝ) (1 / 2) 0 0 = none ∧
      capLinearDefined (1e-12 : ℝ) (1 / 2) 0 0 = none ∧
      opCapacitanceDefined (Libm.mk Real.exp Real.log (fun x y => x ^ y) (Real.sqrt 2) Real.pi)
        (1e-12 : ℝ) (1 / 2) 0 0 = none ∧
      opCapacitanceDefined (Libm.mk Real.exp Real.log (fun x y => x ^ y) (Real.sqrt 2) Real.pi)
        (1e-12 : ℝ) (1 / 2) 0 0 ≠ some 1e-12 := by
  have h1 : capPowerLawDefined (Libm.mk Real.exp Real.log (fun x y => x ^ y) (Real.sqrt 2) Real.pi)
      (1e-12 : ℝ) (1 / 2) 0 0 = none := by
    simp [capPowerLawDefined, quotient]
  have h2 : capLinearDefined (1e-12 : ℝ) (1 / 2) 0 0 = none := by
    simp [capLinearDefined, quotient]
  have h3 : opCapacitanceDefined (Libm.mk Real.exp Real.log (fun x y => x ^ y) (Real.sqrt 2) Real.pi)
      (1e-12 : ℝ) (1 / 2) 0 0 = none := by
    simp [opCapacitanceDefined, capLinearDefined, quotient]
  refine ⟨h1, h2, h3, ?_⟩
  rw [h3]
  exact fun h => Option.noConfusion h

/-- C11 (amended): capacitance continuity for a non-zero junction potential.
With `pow` the real power function and `Pb ≠ 0`, no division of the capacitance
law is a division by zero; at `U = 0` the power-law branch
`C0 * pow (1 - U / Pb, -M)` and the linear branch `C0 * (1 + M * U / Pb)` of
`calcOperatingPoints` both evaluate to `C0`, which is the capacitance computed
at `U = 0`; and the capacitance computed for `U < 0` tends to it as `U` tends
to `0` from below. -/
theorem capacitance_continuous_at_zero (m : Libm ℝ) (hpow : ∀ x y : ℝ, m.pow x y = x ^ y)
    (C0 M Pb : ℝ) (hPb : Pb ≠ 0) :
    (∀ U, opCapacitanceDefined m C0 M Pb U = some (opCapacitance m C0 M Pb U)) ∧
      (capPowerLawDefined m C0 M Pb 0 = some C0 ∧ capLinearDefined C0 M Pb 0 = some C0) ∧
      (capPowerLaw m C0 M Pb 0 = C0 ∧ capLinear C0 M Pb 0 = C0) ∧
      opCapacitance m C0 M Pb 0 = C0 ∧
      Tendsto (fun U => opCapacitance m C0 M Pb U) (𝓝[<] 0)
        (𝓝 (opCapacitance m C0 M Pb 0)) := by
  have hP : capPowerLaw m C0 M Pb 0 = C0 := by
    simp [capPowerLaw, hpow]
  have hL : capLinear C0 M Pb 0 = C0 := by
    simp [capLinear]
  have hPd : capPowerLawDefined m C0 M Pb 0 = some C0 := by
    simp [capPowerLawDefined, quotient, hPb, hpow]
  have hLd : capLinearDefined C0 M Pb 0 = some C0 := by
    simp [capLinearDefined, quotient, hPb]
  have h0 : opCapacitance m C0 M Pb 0 = C0 := by
    rw [opCapacitance_eq_branches, if_neg (lt_irrefl 0), hL]
  refine ⟨fun U => opCapacitanceDefined_eq m C0 M Pb U hPb, ⟨hPd, hLd⟩, ⟨hP, hL⟩, h0, ?_⟩
  rw [h0]
  have hbase : ContinuousAt (fun U : ℝ => 1 - U / Pb) 0 := by fun_prop
  have hpw : ContinuousAt (fun U : ℝ => (1 - U / Pb) ^ (-M)) 0 :=
    hbase.rpow_const (Or.inl (by simp))
  have hg : ContinuousAt (fun U : ℝ => C0 * (1 - U / Pb) ^ (-M)) 0 :=
    continuousAt_const.mul hpw
  have ht : Tendsto (fun U : ℝ => C0 * (1 - U / Pb) ^ (-M)) (𝓝[<] 0) (𝓝 C0) := by
    have := hg.tendsto.mono_left (nhdsWithin_le_nhds (s := Set.Iio (0 : ℝ)))
    simpa using this
  refine ht.congr' (eventually_of_mem self_mem_nhdsWithin ?_)
  intro U hU
  have hU' : U < 0 := hU
  simp [opCapacitance, hU', hpow]

/-- C11 (witness): the real power function for `pow`, at `C0 = 1e-12`,
`M = 1/2`, `Pb = 1`. -/
theorem capacitance_continuous_at_zero_witness :
    ((∀ x y : ℝ, (Libm.mk Real.exp Real.log (fun x y => x ^ y) (Real.sqrt 2) Real.pi).pow x y
        = x ^ y) ∧ (1 : ℝ) ≠ 0) ∧
      opCapacitanceDefined (Libm.mk Real.exp Real.log (fun x y => x ^ y) (Real.sqrt 2) Real.pi)
        1e-12 (1 / 2) 1 0 = some 1e-12 ∧
      Tendsto (fun U => opCapacitance
          (Libm.mk Real.exp Real.log (fun x y => x ^ y) (Real.sqrt 2) Real.pi)
          1e-12 (1 / 2) 1 U) (𝓝[<] 0)
        (𝓝 (opCapacitance (Libm.mk Real.exp Real.log (fun x y => x ^ y) (Real.sqrt 2) Real.pi)
          1e-12 (1 / 2) 1 0)) := by
  obtain ⟨hd, -, -, h0, ht⟩ :=
    capacitance_continuous_at_zero
      (Libm.mk Real.exp Real.log (fun x y => x ^ y) (Real.sqrt 2) Real.pi)
      (fun _ _ => rfl) 1e-12 (1 / 2) 1 one_ne_zero
  exact ⟨⟨fun _ _ => rfl, one_ne_zero⟩, by rw [hd 0, h0], ht⟩

section StampOfLimited

variable {α : Type} [LinearOrderedField α]

/-- Everything `calcDC` stamps (lines 208-218), in terms of the two gate diodes
and the channel evaluated at the limited junction voltages. -/
theorem calcDC_stamp (c : Constants α) (m : Libm α) (pnVoltage : α → α → α → α → α)
    (s : Jfet α) :
    let Ugs := limitedUgs c m pnVoltage s
    let Ugd := limitedUgd c m pnVoltage s
    let gs := dcJunction m s.prop.Is (thermalVoltage c) s.prop.N Ugs
    let gd := dcJunction m s.prop.Is (thermalVoltage c) s.prop.N Ugd
    let ch := channel s.prop.Vt0 s.prop.Lambda s.prop.Beta Ugs Ugd
    let IeqG := gs.I - gs.g * Ugs
    let IeqD := gd.I - gd.g * Ugd
    let IeqS := ch.Ids - ch.gm * Ugs - ch.gds * (Ugs - Ugd)
    ((calcDC c m pnVoltage s).I 1 = -IeqG - IeqD ∧
      (calcDC c m pnVoltage s).I 2 = IeqD - IeqS ∧
      (calcDC c m pnVoltage s).I 3 = IeqG + IeqS) ∧
    ((calcDC c m pnVoltage s).Y 1 1 = gs.g + gd.g ∧
      (calcDC c m pnVoltage s).Y 1 2 = -gd.g ∧
      (calcDC c m pnVoltage s).Y 1 3 = -gs.g) ∧
    ((calcDC c m pnVoltage s).Y 2 1 = -gd.g + ch.gm ∧
      (calcDC c m pnVoltage s).Y 2 2 = ch.gds + gd.g ∧
      (calcDC c m pnVoltage s).Y 2 3 = -ch.gm - ch.gds) ∧
    ((calcDC c m pnVoltage s).Y 3 1 = -gs.g - ch.gm ∧
      (calcDC c m pnVoltage s).Y 3 2 = -ch.gds ∧
      (calcDC c m pnVoltage s).Y 3 3 = gs.g + ch.gds + ch.gm) := by
  intro Ugs Ugd gs gd ch IeqG IeqD IeqS
  refine ⟨⟨?_, ?_, ?_⟩, ⟨?_, ?_, ?_⟩, ⟨?_, ?_, ?_⟩, ⟨?_, ?_, ?_⟩⟩ <;>
    simp [calcDC, setI, setY, setOperatingPoint, Ugs, Ugd, gs, gd, ch, IeqG, IeqD, IeqS,
      limitedUgs, limitedUgd]

end StampOfLimited

/-- C12: gate-junction diode with reverse-bias floor.  With `exp` the real
exponential and `Is > 0`, `N > 0`, `Ut > 0`: the conductances that `calcDC`
stamps for the gate-source and the gate-drain junction are those of one diode
evaluation at the limited `Ugs` resp. `Ugd`; at every junction voltage `U` that
evaluation gives the current `Is * (exp (U / (N * Ut)) - 1)` and the
conductance `Is / (N * Ut) * exp (U / (N * Ut))` when `U >= -10 * N * Ut`, and
these plus `Is * U` resp. `Is` when `U < -10 * N * Ut`; the conductance is
strictly positive for every `U` and at least `Is` when `U < -10 * N * Ut`. -/
theorem dcJunction_diode_law (c : Constants ℝ) (m : Libm ℝ)
    (pnVoltage : ℝ → ℝ → ℝ → ℝ → ℝ) (s : Jfet ℝ) (U : ℝ)
    (hexp : ∀ x : ℝ, m.exp x = Real.exp x)
    (hIs : 0 < s.prop.Is) (hN : 0 < s.prop.N) (hUt : 0 < thermalVoltage c) :
    ((calcDC c m pnVoltage s).Y 1 3
        = -(dcJunction m s.prop.Is (thermalVoltage c) s.prop.N
            (limitedUgs c m pnVoltage s)).g ∧
      (calcDC c m pnVoltage s).Y 1 2
        = -(dcJunction m s.prop.Is (thermalVoltage c) s.prop.N
            (limitedUgd c m pnVoltage s)).g) ∧
    (-10 * s.prop.N * thermalVoltage c ≤ U →
      (dcJunction m s.prop.Is (thermalVoltage c) s.prop.N U).I
          = s.prop.Is * (Real.exp (U / (s.prop.N * thermalVoltage c)) - 1) ∧
        (dcJunction m s.prop.Is (thermalVoltage c) s.prop.N U).g
          = s.prop.Is / (s.prop.N * thermalVoltage c)
              * Real.exp (U / (s.prop.N * thermalVoltage c))) ∧
    (U < -10 * s.prop.N * thermalVoltage c →
      (dcJunction m s.prop.Is (thermalVoltage c) s.prop.N U).I
          = s.prop.Is * (Real.exp (U / (s.prop.N * thermalVoltage c)) - 1)
              + s.prop.Is * U ∧
        (dcJunction m s.prop.Is (thermalVoltage c) s.prop.N U).g
          = s.prop.Is / (s.prop.N * thermalVoltage c)
              * Real.exp (U / (s.prop.N * thermalVoltage c)) + s.prop.Is ∧
        s.prop.Is ≤ (dcJunction m s.prop.Is (thermalVoltage c) s.prop.N U).g) ∧
    0 < (dcJunction m s.prop.Is (thermalVoltage c) s.prop.N U).g := by
  have e1 : U / thermalVoltage c / s.prop.N = U / (s.prop.N * thermalVoltage c) := by
    rw [div_div, mul_comm]
  have e2 : s.prop.Is / thermalVoltage c / s.prop.N
      = s.prop.Is / (s.prop.N * thermalVoltage c) := by
    rw [div_div, mul_comm]
  have e3 : -10 * thermalVoltage c * s.prop.N = -10 * s.prop.N * thermalVoltage c := by
    ring
  have hpos : 0 < s.prop.Is / (s.prop.N * thermalVoltage c)
      * Real.exp (U / (s.prop.N * thermalVoltage c)) :=
    mul_pos (div_pos hIs (mul_pos hN hUt)) (Real.exp_pos _)
  have hst := calcDC_stamp c m pnVoltage s
  refine ⟨⟨hst.2.1.2.2, hst.2.1.2.1⟩, ?_, ?_, ?_⟩
  · intro h
    have h' : ¬ U < -10 * thermalVoltage c * s.prop.N := by rw [e3]; exact not_lt.mpr h
    simp only [dcJunction, if_neg h', hexp, e1, e2, add_zero, zero_mul, and_self]
  · intro h
    have h' : U < -10 * thermalVoltage c * s.prop.N := by rw [e3]; exact h
    simp only [dcJunction, if_pos h', hexp, e1, e2, true_and]
    linarith
  · by_cases h' : U < -10 * thermalVoltage c * s.prop.N
    · simp only [dcJunction, if_pos h', hexp, e1, e2]
      linarith
    · simp only [dcJunction, if_neg h', hexp, e1, e2, add_zero]
      exact hpos

/-- C12 (witness): the sample device (`Is = 1e-14`, `N = 1`) with the physical
constants and the real exponential, at `U = -5`. -/
theorem dcJunction_diode_law_witness :
    ((∀ x : ℝ, (Libm.mk Real.exp Real.log (fun x y => x ^ y) (Real.sqrt 2) Real.pi).exp x
          = Real.exp x) ∧
        0 < (sampleDevice (0 : ℝ) 5 0).prop.Is ∧ 0 < (sampleDevice (0 : ℝ) 5 0).prop.N ∧
        0 < thermalVoltage (physicalConstants : Constants ℝ)) ∧
      0 < (dcJunction (Libm.mk Real.exp Real.log (fun x y => x ^ y) (Real.sqrt 2) Real.pi)
        (sampleDevice (0 : ℝ) 5 0).prop.Is (thermalVoltage physicalConstants)
        (sampleDevice (0 : ℝ) 5 0).prop.N (-5)).g := by
  have h1 : 0 < (sampleDevice (0 : ℝ) 5 0).prop.Is := by norm_num [sampleDevice]
  have h2 : 0 < (sampleDevice (0 : ℝ) 5 0).prop.N := by norm_num [sampleDevice]
  have h3 : 0 < thermalVoltage (physicalConstants : Constants ℝ) := by
    norm_num [thermalVoltage, physicalConstants]
  exact ⟨⟨fun _ => rfl, h1, h2, h3⟩,
    (dcJunction_diode_law physicalConstants _ (fun raw _ _ _ => raw) (sampleDevice 0 5 0) (-5)
      (fun _ => rfl) h1 h2 h3).2.2.2⟩


/-! ### The previous-voltage state and the topology initialisation -/

section InitTheorems

variable {α : Type} [LinearOrderedField α] {W : Type}

/-- What `initDC` leaves in the device: the node voltages `0.8`, `0`, `0`, the
previous junction voltages, the properties and `S` unchanged. -/
theorem initDC_core (h : Helpers W α) (d : Device α) (w : W) :
    (initDC h d w).1.core.UgsPrev = 0.8 ∧ (initDC h d w).1.core.UgdPrev = 0.8 ∧
      (initDC h d w).1.core.prop = d.core.prop ∧
      getV (initDC h d w).1.core 1 = Cplx.ofReal 0.8 ∧
      getV (initDC h d w).1.core 2 = Cplx.ofReal 0 ∧
      getV (initDC h d w).1.core 3 = Cplx.ofReal 0 := by
  refine ⟨?_, ?_, ?_, ?_, ?_, ?_⟩ <;>
    simp [initDC, setV, getV, Cplx.sub, Cplx.real, Cplx.ofReal] <;> norm_num

/-- C13: previous-voltage state invariant, for an arbitrary limiter
`pnVoltage`.  After `initDC`, `UgsPrev = UgdPrev = 0.8`.  After `calcDC`,
`UgsPrev` is the limiter applied to `V(gate) - V(source)`, the old `UgsPrev`,
`N * Ut` and `Vcrit = N * Ut * log (N * Ut / (M_SQRT2 * Is))`, and `UgdPrev` is
the limiter applied to `V(gate) - V(drain)`, the old `UgdPrev`, `N * Ut` and
`Vcrit`; and every stored operating point and every stamped current and
conductance of that call is computed from the diode and channel equations at
these two stored values. -/
theorem prev_voltage_invariant (h : Helpers W α) (d : Device α) (w : W)
    (c : Constants α) (m : Libm α) (pnVoltage : α → α → α → α → α) (s : Jfet α) :
    ((initDC h d w).1.core.UgsPrev = 0.8 ∧ (initDC h d w).1.core.UgdPrev = 0.8) ∧
    ((calcDC c m pnVoltage s).UgsPrev
        = pnVoltage ((getV s 1).re - (getV s 3).re) s.UgsPrev
            (s.prop.N * thermalVoltage c)
            (s.prop.N * thermalVoltage c
              * m.log (s.prop.N * thermalVoltage c / (m.M_SQRT2 * s.prop.Is))) ∧
      (calcDC c m pnVoltage s).UgdPrev
        = pnVoltage ((getV s 1).re - (getV s 2).re) s.UgdPrev
            (s.prop.N * thermalVoltage c)
            (s.prop.N * thermalVoltage c
              * m.log (s.prop.N * thermalVoltage c / (m.M_SQRT2 * s.prop.Is)))) ∧
    (let Ugs := (calcDC c m pnVoltage s).UgsPrev
     let Ugd := (calcDC c m pnVoltage s).UgdPrev
     let gs := dcJunction m s.prop.Is (thermalVoltage c) s.prop.N Ugs
     let gd := dcJunction m s.prop.Is (thermalVoltage c) s.prop.N Ugd
     let ch := channel s.prop.Vt0 s.prop.Lambda s.prop.Beta Ugs Ugd
     let IeqG := gs.I - gs.g * Ugs
     let IeqD := gd.I - gd.g * Ugd
     let IeqS := ch.Ids - ch.gm * Ugs - ch.gds * (Ugs - Ugd)
     (getOperatingPoint (calcDC c m pnVoltage s) "Id" = some ch.Ids ∧
       getOperatingPoint (calcDC c m pnVoltage s) "gm" = some ch.gm ∧
       getOperatingPoint (calcDC c m pnVoltage s) "gds" = some ch.gds) ∧
     ((calcDC c m pnVoltage s).I 1 = -IeqG - IeqD ∧
       (calcDC c m pnVoltage s).I 2 = IeqD - IeqS ∧
       (calcDC c m pnVoltage s).I 3 = IeqG + IeqS) ∧
     ((calcDC c m pnVoltage s).Y 1 1 = gs.g + gd.g ∧
       (calcDC c m pnVoltage s).Y 1 2 = -gd.g ∧
       (calcDC c m pnVoltage s).Y 1 3 = -gs.g) ∧
     ((calcDC c m pnVoltage s).Y 2 1 = -gd.g + ch.gm ∧
       (calcDC c m pnVoltage s).Y 2 2 = ch.gds + gd.g ∧
       (calcDC c m pnVoltage s).Y 2 3 = -ch.gm - ch.gds) ∧
     ((calcDC c m pnVoltage s).Y 3 1 = -gs.g - ch.gm ∧
       (calcDC c m pnVoltage s).Y 3 2 = -ch.gds ∧
       (calcDC c m pnVoltage s).Y 3 3 = gs.g + ch.gds + ch.gm)) := by
  have hp := calcDC_stores_channel c m pnVoltage s
  have hs := calcDC_stamp c m pnVoltage s
  have hi := initDC_core h d w
  refine ⟨⟨hi.1, hi.2.1⟩, ⟨?_, ?_⟩, ?_⟩
  · rw [hp.2.2.2.1]
    simp only [limitedUgs, critVoltage, Cplx.real, Cplx.sub, div_div,
      mul_comm (thermalVoltage c) s.prop.N]
  · rw [hp.2.2.2.2]
    simp only [limitedUgd, critVoltage, Cplx.real, Cplx.sub, div_div,
      mul_comm (thermalVoltage c) s.prop.N]
  · simp only [hp.2.2.2.1, hp.2.2.2.2]
    exact ⟨⟨hp.1, hp.2.1, hp.2.2.1⟩, hs⟩

/-- C18: the companion model is exact at the linearisation point.  If the
terminal voltages are the reals `Vg`, `Vd`, `Vs` and the limiter returns the
raw junction voltages (`Vg - Vs` and `Vg - Vd`) unchanged, the stamped
conductance matrix `Y` and current vector `I` satisfy `Y * V - I = (Igs + Igd, Ids - Igd,
-Igs - Ids)`, with `Igs`, `Igd` the diode currents and `Ids` the channel
current at these voltages. -/
theorem calcDC_exact_at_linearisation_point (c : Constants α) (m : Libm α)
    (pnVoltage : α → α → α → α → α) (s : Jfet α) (Vg Vd Vs : α)
    (hg : getV s 1 = Cplx.ofReal Vg) (hd : getV s 2 = Cplx.ofReal Vd)
    (hs : getV s 3 = Cplx.ofReal Vs)
    (hgs : limitedUgs c m pnVoltage s = Cplx.real (Cplx.sub (getV s 1) (getV s 3)))
    (hgd : limitedUgd c m pnVoltage s = Cplx.real (Cplx.sub (getV s 1) (getV s 2))) :
    let Igs := (dcJunction m s.prop.Is (thermalVoltage c) s.prop.N (Vg - Vs)).I
    let Igd := (dcJunction m s.prop.Is (thermalVoltage c) s.prop.N (Vg - Vd)).I
    let Ids := (channel s.prop.Vt0 s.prop.Lambda s.prop.Beta (Vg - Vs) (Vg - Vd)).Ids
    (calcDC c m pnVoltage s).Y 1 1 * Vg + (calcDC c m pnVoltage s).Y 1 2 * Vd
        + (calcDC c m pnVoltage s).Y 1 3 * Vs - (calcDC c m pnVoltage s).I 1
        = Igs + Igd ∧
      (calcDC c m pnVoltage s).Y 2 1 * Vg + (calcDC c m pnVoltage s).Y 2 2 * Vd
        + (calcDC c m pnVoltage s).Y 2 3 * Vs - (calcDC c m pnVoltage s).I 2
        = Ids - Igd ∧
      (calcDC c m pnVoltage s).Y 3 1 * Vg + (calcDC c m pnVoltage s).Y 3 2 * Vd
        + (calcDC c m pnVoltage s).Y 3 3 * Vs - (calcDC c m pnVoltage s).I 3
        = -Igs - Ids := by
  intro Igs Igd Ids
  have hst := calcDC_stamp c m pnVoltage s
  have egs : limitedUgs c m pnVoltage s = Vg - Vs := by
    rw [hgs, hg, hs]; rfl
  have egd : limitedUgd c m pnVoltage s = Vg - Vd := by
    rw [hgd, hg, hd]; rfl
  simp only [egs, egd] at hst
  obtain ⟨⟨i1, i2, i3⟩, ⟨y11, y12, y13⟩, ⟨y21, y22, y23⟩, ⟨y31, y32, y33⟩⟩ := hst
  rw [i1, i2, i3, y11, y12, y13, y21, y22, y23, y31, y32, y33]
  refine ⟨?_, ?_, ?_⟩ <;> simp only [Igs, Igd, Ids] <;> ring

end InitTheorems

/-- C18 (witness): the sample device at `Vg = 0`, `Vd = 5`, `Vs = 0` with a
limiter that returns the raw voltage; the second component. -/
theorem calcDC_exact_at_linearisation_point_witness :
    (getV (sampleDevice (0 : ℝ) 5 0) 1 = Cplx.ofReal 0 ∧
      getV (sampleDevice (0 : ℝ) 5 0) 2 = Cplx.ofReal 5 ∧
      getV (sampleDevice (0 : ℝ) 5 0) 3 = Cplx.ofReal 0 ∧
      limitedUgs physicalConstants
          (Libm.mk Real.exp Real.log (fun x y => x ^ y) (Real.sqrt 2) Real.pi)
          (fun raw _ _ _ => raw) (sampleDevice (0 : ℝ) 5 0)
        = Cplx.real (Cplx.sub (getV (sampleDevice (0 : ℝ) 5 0) 1)
            (getV (sampleDevice (0 : ℝ) 5 0) 3)) ∧
      limitedUgd physicalConstants
          (Libm.mk Real.exp Real.log (fun x y => x ^ y) (Real.sqrt 2) Real.pi)
          (fun raw _ _ _ => raw) (sampleDevice (0 : ℝ) 5 0)
        = Cplx.real (Cplx.sub (getV (sampleDevice (0 : ℝ) 5 0) 1)
            (getV (sampleDevice (0 : ℝ) 5 0) 2))) ∧
    (calcDC physicalConstants
          (Libm.mk Real.exp Real.log (fun x y => x ^ y) (Real.sqrt 2) Real.pi)
          (fun raw _ _ _ => raw) (sampleDevice (0 : ℝ) 5 0)).Y 2 1 * 0
        + (calcDC physicalConstants
          (Libm.mk Real.exp Real.log (fun x y => x ^ y) (Real.sqrt 2) Real.pi)
          (fun raw _ _ _ => raw) (sampleDevice (0 : ℝ) 5 0)).Y 2 2 * 5
        + (calcDC physicalConstants
          (Libm.mk Real.exp Real.log (fun x y => x ^ y) (Real.sqrt 2) Real.pi)
          (fun raw _ _ _ => raw) (sampleDevice (0 : ℝ) 5 0)).Y 2 3 * 0
        - (calcDC physicalConstants
          (Libm.mk Real.exp Real.log (fun x y => x ^ y) (Real.sqrt 2) Real.pi)
          (fun raw _ _ _ => raw) (sampleDevice (0 : ℝ) 5 0)).I 2
      = (channel (sampleDevice (0 : ℝ) 5 0).prop.Vt0 (sampleDevice (0 : ℝ) 5 0).prop.Lambda
            (sampleDevice (0 : ℝ) 5 0).prop.Beta (0 - 0) (0 - 5)).Ids
        - (dcJunction (Libm.mk Real.exp Real.log (fun x y => x ^ y) (Real.sqrt 2) Real.pi)
            (sampleDevice (0 : ℝ) 5 0).prop.Is (thermalVoltage physicalConstants)
            (sampleDevice (0 : ℝ) 5 0).prop.N (0 - 5)).I := by
  have a1 : getV (sampleDevice (0 : ℝ) 5 0) 1 = Cplx.ofReal 0 := by simp [sampleDevice, getV]
  have a2 : getV (sampleDevice (0 : ℝ) 5 0) 2 = Cplx.ofReal 5 := by simp [sampleDevice, getV]
  have a3 : getV (sampleDevice (0 : ℝ) 5 0) 3 = Cplx.ofReal 0 := by simp [sampleDevice, getV]
  have a4 : limitedUgs physicalConstants
      (Libm.mk Real.exp Real.log (fun x y => x ^ y) (Real.sqrt 2) Real.pi)
      (fun raw _ _ _ => raw) (sampleDevice (0 : ℝ) 5 0)
        = Cplx.real (Cplx.sub (getV (sampleDevice (0 : ℝ) 5 0) 1)
            (getV (sampleDevice (0 : ℝ) 5 0) 3)) := rfl
  have a5 : limitedUgd physicalConstants
      (Libm.mk Real.exp Real.log (fun x y => x ^ y) (Real.sqrt 2) Real.pi)
      (fun raw _ _ _ => raw) (sampleDevice (0 : ℝ) 5 0)
        = Cplx.real (Cplx.sub (getV (sampleDevice (0 : ℝ) 5 0) 1)
            (getV (sampleDevice (0 : ℝ) 5 0) 2)) := rfl
  exact ⟨⟨a1, a2, a3, a4, a5⟩,
    (calcDC_exact_at_linearisation_point physicalConstants _ _ (sampleDevice 0 5 0) 0 5 0
      a1 a2 a3 a4 a5).2.1⟩

section TopologyTheorems

variable {α : Type} [LinearOrderedField α] {W : Type}

/-- The handles that `initDC` stores and the state it leaves the helpers in,
case by case: for a non-zero resistance the pointer returned by
`splitResistance` is stored, for a zero resistance the pointer is kept. -/
theorem initDC_handles (h : Helpers W α) (d : Device α) (w : W) :
    let srcW : W :=
      if d.core.prop.Rs ≠ 0 then
        h.applyResistance (h.splitResistance w d.rs "Rs" "source" 3).2
          (h.splitResistance w d.rs "Rs" "source" 3).1 d.core.prop.Rs
      else h.disableResistance w d.rs 2
    (initDC h d w).1.rs
        = (if d.core.prop.Rs ≠ 0 then (h.splitResistance w d.rs "Rs" "source" 3).1
            else d.rs) ∧
      (initDC h d w).1.rd
        = (if d.core.prop.Rd ≠ 0 then (h.splitResistance srcW d.rd "Rd" "drain" 2).1
            else d.rd) ∧
      (initDC h d w).2
        = (if d.core.prop.Rd ≠ 0 then
            h.applyResistance (h.splitResistance srcW d.rd "Rd" "drain" 2).2
              (h.splitResistance srcW d.rd "Rd" "drain" 2).1 d.core.prop.Rd
          else h.disableResistance srcW d.rd 2) := by
  intro srcW
  by_cases hs : d.core.prop.Rs = 0 <;> by_cases hd : d.core.prop.Rd = 0 <;>
    simp [initDC, setV, srcW, hs, hd]

/-- C14 (the code at the failing input): a device with `Rs = 0` and `Rd = 0`
whose sub-elements `rs` (pointer 7) and `rd` (pointer 8) exist, with helpers
that record their calls.  `initDC` calls `disableResistance` for `rs` with node
slot 2 and then for `rd` with node slot 2; it makes no call with slot 3.  The
same device with `Rs = Rd = 50` calls `splitResistance` for `rs` with slot 3
and for `rd` with slot 2. -/
theorem initDC_disables_source_on_slot_two :
    (initDC (recordingHelpers fun res _ _ _ => res)
        (sampleObject (0 : ℚ) 0 (some 7) (some 8)) []).2
      = [HelperCall.disableResistance (some 7) 2, HelperCall.disableResistance (some 8) 2] ∧
    (initDC (recordingHelpers fun res _ _ _ => res)
        (sampleObject (50 : ℚ) 50 (some 7) (some 8)) []).2
      = [HelperCall.splitResistance (some 7) "Rs" "source" 3,
          HelperCall.applyResistance (some 7) 50,
          HelperCall.splitResistance (some 8) "Rd" "drain" 2,
          HelperCall.applyResistance (some 8) 50] := by
  constructor <;> simp [initDC, recordingHelpers, sampleObject, sampleDevice, setV]

/-- C15: idempotent topology initialisation.  Let `initDC` be called twice in a
row, the second time on the device and the helper state that the first call
left.  If `Rs` is non-zero, the `rs` stored by the second call is what
`splitResistance` returns when it is passed the `rs` stored by the first call
(with `"Rs"`, `"source"`, slot 3); hence, for a helper that returns the
existing pointer whenever it is passed one, `rs` after the second call equals
`rs` after the first call, provided the first call stored a pointer.  The same
holds for `Rd` and `rd` (with `"Rd"`, `"drain"`, slot 2). -/
theorem initDC_idempotent (h : Helpers W α) (d : Device α) (w : W)
    (hret : ∀ (v : W) (r : Handle) (l t : String) (k : Nat),
      r ≠ none → (h.splitResistance v r l t k).1 = r) :
    (d.core.prop.Rs ≠ 0 →
      (initDC h (initDC h d w).1 (initDC h d w).2).1.rs
          = (h.splitResistance (initDC h d w).2 (initDC h d w).1.rs "Rs" "source" 3).1 ∧
        ((initDC h d w).1.rs ≠ none →
          (initDC h (initDC h d w).1 (initDC h d w).2).1.rs = (initDC h d w).1.rs)) ∧
    (d.core.prop.Rd ≠ 0 →
      (∃ v : W, (initDC h (initDC h d w).1 (initDC h d w).2).1.rd
          = (h.splitResistance v (initDC h d w).1.rd "Rd" "drain" 2).1) ∧
        ((initDC h d w).1.rd ≠ none →
          (initDC h (initDC h d w).1 (initDC h d w).2).1.rd = (initDC h d w).1.rd)) := by
  have hprop : (initDC h d w).1.core.prop = d.core.prop := (initDC_core h d w).2.2.1
  have h2 := initDC_handles h (initDC h d w).1 (initDC h d w).2
  simp only [hprop] at h2
  obtain ⟨hrs, hrd, -⟩ := h2
  constructor
  · intro hRs
    rw [if_pos hRs] at hrs
    refine ⟨hrs, fun hne => ?_⟩
    rw [hrs]
    exact hret _ _ _ _ _ hne
  · intro hRd
    rw [if_pos hRd] at hrd
    refine ⟨⟨_, hrd⟩, fun hne => ?_⟩
    rw [hrd]
    exact hret _ _ _ _ _ hne

end TopologyTheorems

/-- C15 (witness): a device with `Rs = Rd = 50` and `rs = rd = NULL`, as the
constructor leaves them, and recording helpers whose `splitResistance` returns
the pointer it is passed, or pointer 1 when it is passed `NULL`: the first call
stores a pointer in `rs`, and the second call stores the same. -/
theorem initDC_idempotent_witness :
    ((∀ (v : List (HelperCall ℚ)) (r : Handle) (l t : String) (k : Nat), r ≠ none →
        ((recordingHelpers fun res _ _ _ => res.orElse fun _ => some 1).splitResistance
          v r l t k).1 = r) ∧
      (sampleObject (50 : ℚ) 50 none none).core.prop.Rs ≠ 0 ∧
      (initDC (recordingHelpers fun res _ _ _ => res.orElse fun _ => some 1)
        (sampleObject (50 : ℚ) 50 none none) []).1.rs ≠ none) ∧
    (initDC (recordingHelpers fun res _ _ _ => res.orElse fun _ => some 1)
        (initDC (recordingHelpers fun res _ _ _ => res.orElse fun _ => some 1)
          (sampleObject (50 : ℚ) 50 none none) []).1
        (initDC (recordingHelpers fun res _ _ _ => res.orElse fun _ => some 1)
          (sampleObject (50 : ℚ) 50 none none) []).2).1.rs
      = (initDC (recordingHelpers fun res _ _ _ => res.orElse fun _ => some 1)
          (sampleObject (50 : ℚ) 50 none none) []).1.rs := by
  have hret : ∀ (v : List (HelperCall ℚ)) (r : Handle) (l t : String) (k : Nat), r ≠ none →
      ((recordingHelpers fun res _ _ _ => res.orElse fun _ => some 1).splitResistance
        v r l t k).1 = r := by
    intro v r l t k hr
    cases r with
    | none => exact absurd rfl hr
    | some x => rfl
  have hRs : (sampleObject (50 : ℚ) 50 none none).core.prop.Rs ≠ 0 := by
    norm_num [sampleObject]
  have hne : (initDC (recordingHelpers fun res _ _ _ => res.orElse fun _ => some 1)
      (sampleObject (50 : ℚ) 50 none none) []).1.rs ≠ none := by
    simp [initDC, recordingHelpers, sampleObject, setV]
  exact ⟨⟨hret, hRs, hne⟩, ((initDC_idempotent _ _ [] hret).1 hRs).2 hne⟩


/-! ### The admittance matrix of `calcSP` -/

section CalcSPTheorems

variable {α : Type} [LinearOrderedField α]

/-- C16: small-signal admittance matrix.  When the six operating points have
the values `Cgd`, `Cgs`, `ggs`, `ggd`, `gds`, `gm`, then with
`Ygd = ggd + j * 2 * pi * f * Cgd`, `Ygs = ggs + j * 2 * pi * f * Cgs` and
`Yds = gds` the matrix `y` that `calcSP` hands to `ytos` has the rows
`[Ygd + Ygs, -Ygd, -Ygs]`, `[gm - Ygd, Ygd + Yds, -Yds - gm]`,
`[-Ygs - gm, -Yds, Ygs + Yds + gm]`, `calcSP` returns, and each of the nine
S-parameter entries `(i, j)` it has written is the entry `(i, j)` of
`ytos y`. -/
theorem calcSP_admittance (m : Libm α) (ytos : matrix α → matrix α) (d : Device α)
    (f Cgd Cgs ggs ggd gds gm : α)
    (hCgd : getOperatingPoint d.core "Cgd" = some Cgd)
    (hCgs : getOperatingPoint d.core "Cgs" = some Cgs)
    (hggs : getOperatingPoint d.core "ggs" = some ggs)
    (hggd : getOperatingPoint d.core "ggd" = some ggd)
    (hgds : getOperatingPoint d.core "gds" = some gds)
    (hgm : getOperatingPoint d.core "gm" = some gm) :
    let Ygd : Cplx α := ⟨ggd, 2 * m.M_PI * f * Cgd⟩
    let Ygs : Cplx α := ⟨ggs, 2 * m.M_PI * f * Cgs⟩
    let Yds : Cplx α := ⟨gds, 0⟩
    let G : Cplx α := ⟨gm, 0⟩
    let y := calcSP_y m f Cgd Cgs ggs ggd gds gm
    (y.get 1 1 = Cplx.add Ygd Ygs ∧ y.get 1 2 = Cplx.neg Ygd ∧ y.get 1 3 = Cplx.neg Ygs) ∧
    (y.get 2 1 = Cplx.sub G Ygd ∧ y.get 2 2 = Cplx.add Ygd Yds ∧
      y.get 2 3 = Cplx.sub (Cplx.neg Yds) G) ∧
    (y.get 3 1 = Cplx.sub (Cplx.neg Ygs) G ∧ y.get 3 2 = Cplx.neg Yds ∧
      y.get 3 3 = Cplx.add (Cplx.add Ygs Yds) G) ∧
    ∃ d', calcSP m ytos d f = some d' ∧ d'.core = d.core ∧ d'.rs = d.rs ∧ d'.rd = d.rd ∧
      (d'.S 1 1 = (ytos y).get 1 1 ∧ d'.S 1 2 = (ytos y).get 1 2 ∧
        d'.S 1 3 = (ytos y).get 1 3) ∧
      (d'.S 2 1 = (ytos y).get 2 1 ∧ d'.S 2 2 = (ytos y).get 2 2 ∧
        d'.S 2 3 = (ytos y).get 2 3) ∧
      (d'.S 3 1 = (ytos y).get 3 1 ∧ d'.S 3 2 = (ytos y).get 3 2 ∧
        d'.S 3 3 = (ytos y).get 3 3) := by
  intro Ygd Ygs Yds G y
  have e2 : (2.0 : α) = 2 := by norm_num
  have hy : (y.get 1 1 = Cplx.add Ygd Ygs ∧ y.get 1 2 = Cplx.neg Ygd ∧
        y.get 1 3 = Cplx.neg Ygs) ∧
      (y.get 2 1 = Cplx.sub G Ygd ∧ y.get 2 2 = Cplx.add Ygd Yds ∧
        y.get 2 3 = Cplx.sub (Cplx.neg Yds) G) ∧
      (y.get 3 1 = Cplx.sub (Cplx.neg Ygs) G ∧ y.get 3 2 = Cplx.neg Yds ∧
        y.get 3 3 = Cplx.add (Cplx.add Ygs Yds) G) := by
    refine ⟨⟨?_, ?_, ?_⟩, ⟨?_, ?_, ?_⟩, ⟨?_, ?_, ?_⟩⟩ <;>
      simp [y, Ygd, Ygs, Yds, G, calcSP_y, matrix.get, matrix.set, matrix.new, Cplx.rect,
        Cplx.ofReal, e2]
  refine ⟨hy.1, hy.2.1, hy.2.2, ?_⟩
  simp only [calcSP, hCgd, hCgs, hggs, hggd, hgds, hgm, Option.bind]
  refine ⟨_, rfl, ?_⟩
  simp [setS, y]

end CalcSPTheorems

/-- C16 (witness): the sample object with its six operating points at the
frequency `1e9`, with the real functions and the identity for `ytos`: `calcSP`
returns and the entry `(2, 1)` it has written is `gm - Ygd`. -/
theorem calcSP_admittance_witness :
    (getOperatingPoint (sampleSmallSignal : Device ℝ).core "Cgd" = some 4.08e-13 ∧
      getOperatingPoint (sampleSmallSignal : Device ℝ).core "Cgs" = some 1e-12 ∧
      getOperatingPoint (sampleSmallSignal : Device ℝ).core "ggs" = some 3.87e-13 ∧
      getOperatingPoint (sampleSmallSignal : Device ℝ).core "ggd" = some 0 ∧
      getOperatingPoint (sampleSmallSignal : Device ℝ).core "gds" = some 0 ∧
      getOperatingPoint (sampleSmallSignal : Device ℝ).core "gm" = some 4e-3) ∧
    ∃ d', calcSP (Libm.mk Real.exp Real.log (fun x y => x ^ y) (Real.sqrt 2) Real.pi)
        (fun y => y) sampleSmallSignal 1e9 = some d' ∧
      d'.S 2 1 = Cplx.sub ⟨4e-3, 0⟩ ⟨0, 2 * Real.pi * 1e9 * 4.08e-13⟩ := by
  have a1 : getOperatingPoint (sampleSmallSignal : Device ℝ).core "Cgd" = some 4.08e-13 := by
    simp [sampleSmallSignal, getOperatingPoint, setOperatingPoint]
  have a2 : getOperatingPoint (sampleSmallSignal : Device ℝ).core "Cgs" = some 1e-12 := by
    simp [sampleSmallSignal, getOperatingPoint, setOperatingPoint]
  have a3 : getOperatingPoint (sampleSmallSignal : Device ℝ).core "ggs" = some 3.87e-13 := by
    simp [sampleSmallSignal, getOperatingPoint, setOperatingPoint]
  have a4 : getOperatingPoint (sampleSmallSignal : Device ℝ).core "ggd" = some 0 := by
    simp [sampleSmallSignal, getOperatingPoint, setOperatingPoint]
  have a5 : getOperatingPoint (sampleSmallSignal : Device ℝ).core "gds" = some 0 := by
    simp [sampleSmallSignal, getOperatingPoint, setOperatingPoint]
  have a6 : getOperatingPoint (sampleSmallSignal : Device ℝ).core "gm" = some 4e-3 := by
    simp [sampleSmallSignal, getOperatingPoint, setOperatingPoint]
  obtain ⟨-, ⟨y21, -, -⟩, -, d', hd', -, -, -, -, ⟨s21, -, -⟩, -⟩ :=
    calcSP_admittance (Libm.mk Real.exp Real.log (fun x y => x ^ y) (Real.sqrt 2) Real.pi)
      (fun y => y) sampleSmallSignal 1e9 _ _ _ _ _ _ a1 a2 a3 a4 a5 a6
  exact ⟨⟨a1, a2, a3, a4, a5, a6⟩, d', hd', by rw [s21, y21]⟩


/-! ### The lookup of an operating point -/

section FindTheorems

variable {α : Type}

/-- C17: operating-point lookup.  On a chain whose nodes are all named,
`findOperatingPoint` returns; it returns `NULL` exactly when no node of the
chain has the name `n`; and a node it returns is a node of the chain (the one
at the position given) that has the name `n`, while no node before it in the
chain has the name `n`. -/
theorem findOperatingPoint_spec (n : String) (chain : List (operatingpoint α))
    (hnamed : ∀ p ∈ chain, p.name ≠ none) :
    ∃ r, findOperatingPoint n chain = some r ∧
      (r = none ↔ ∀ p ∈ chain, p.name ≠ some n) ∧
      (∀ i p, r = some (i, p) →
        chain.get? i = some p ∧ p.name = some n ∧
          ∀ j q, j < i → chain.get? j = some q → q.name ≠ some n) := by
  induction chain with
  | nil =>
    exact ⟨none, rfl, by simp, by simp⟩
  | cons hd tl ih =>
    obtain ⟨r, hr, hnone, hsome⟩ := ih (fun p hp => hnamed p (List.mem_cons_of_mem _ hp))
    have hhd : hd.name ≠ none := hnamed hd (List.mem_cons_self _ _)
    obtain ⟨nm, hnm⟩ := Option.ne_none_iff_exists'.mp hhd
    by_cases heq : nm = n
    · refine ⟨some (0, hd), ?_, ?_, ?_⟩
      · simp [findOperatingPoint, hnm, heq]
      · simp [hnm, heq]
      · intro i p hip
        simp only [Option.some.injEq, Prod.mk.injEq] at hip
        obtain ⟨rfl, rfl⟩ := hip
        refine ⟨rfl, by rw [hnm, heq], ?_⟩
        intro j q hj
        exact absurd hj (Nat.not_lt_zero j)
    · refine ⟨r.map (fun x => (x.1 + 1, x.2)), ?_, ?_, ?_⟩
      · simp [findOperatingPoint, hnm, heq, hr]
      · have hne : hd.name ≠ some n := by
          rw [hnm]; intro h; exact heq (Option.some.inj h)
        constructor
        · intro h
          have hr0 : r = none := by
            cases r with
            | none => rfl
            | some x => simp at h
          intro p hp
          rcases List.mem_cons.mp hp with rfl | hp
          · exact hne
          · exact hnone.mp hr0 p hp
        · intro h
          have : r = none := hnone.mpr (fun p hp => h p (List.mem_cons_of_mem _ hp))
          simp [this]
      · intro i p hip
        have hne : hd.name ≠ some n := by
          rw [hnm]; intro h; exact heq (Option.some.inj h)
        cases r with
        | none => simp at hip
        | some x =>
          simp only [Option.map_some', Option.some.injEq, Prod.mk.injEq] at hip
          obtain ⟨hi, hp⟩ := hip
          obtain ⟨h1, h2, h3⟩ := hsome x.1 x.2 rfl
          subst hi
          subst hp
          refine ⟨by simpa using h1, h2, ?_⟩
          intro j q hj hq
          cases j with
          | zero =>
            simp only [List.get?_cons_zero, Option.some.injEq] at hq
            subst hq
            exact hne
          | succ k =>
            simp only [List.get?_cons_succ] at hq
            exact h3 k q (Nat.lt_of_succ_lt_succ hj) hq

end FindTheorems

/-- C17 (witness): in the chain `"gm"`, `"Id"`, `"gm"` every node is named; the
lookup of `"Id"` returns the node at position 1 and the lookup of `"gm"` the
one at position 0. -/
theorem findOperatingPoint_spec_witness :
    (∀ p ∈ (sampleChain : List (operatingpoint ℚ)), p.name ≠ none) ∧
      (∃ r, findOperatingPoint "Id" (sampleChain : List (operatingpoint ℚ)) = some r ∧
        (r = none ↔ ∀ p ∈ (sampleChain : List (operatingpoint ℚ)), p.name ≠ some "Id") ∧
        (∀ i p, r = some (i, p) →
          (sampleChain : List (operatingpoint ℚ)).get? i = some p ∧ p.name = some "Id" ∧
            ∀ j q, j < i → (sampleChain : List (operatingpoint ℚ)).get? j = some q →
              q.name ≠ some "Id")) ∧
      findOperatingPoint "Id" (sampleChain : List (operatingpoint ℚ))
        = some (some (1, ⟨some "Id", 2⟩)) ∧
      findOperatingPoint "gm" (sampleChain : List (operatingpoint ℚ))
        = some (some (0, ⟨some "gm", 1⟩)) ∧
      findOperatingPoint "Ugs" (sampleChain : List (operatingpoint ℚ)) = some none := by
  have hn : ∀ p ∈ (sampleChain : List (operatingpoint ℚ)), p.name ≠ none := by
    simp [sampleChain]
  refine ⟨hn, findOperatingPoint_spec "Id" sampleChain hn, ?_, ?_, ?_⟩ <;>
    simp [findOperatingPoint, sampleChain]


/-! ### Saturation-region derivatives and the sign of the channel current -/

/-- The derivatives of the channel current strictly inside the saturation
region.  In normal mode (`0 < Ugst < Uds`) the derivative of `Ids` with respect
to `Ugs` at fixed `Uds` is the `gm` computed by `calcDC`, and the derivative
with respect to `Uds` at fixed `Ugs` is `Beta * Lambda * Ugst^2`.  In inverse
mode (`Uds < 0`, `0 < Ugdt < -Uds`) the two derivatives are the `gm` and the
`gds` computed by `calcDC`. -/
theorem channel_saturation_derivatives (Vt0 l beta Ugs Uds : ℝ) :
    (0 < Ugs - Vt0 ∧ Ugs - Vt0 < Uds →
      HasDerivAt (fun x => (channel Vt0 l beta x (x - Uds)).Ids)
          (channel Vt0 l beta Ugs (Ugs - Uds)).gm Ugs ∧
        HasDerivAt (fun u => (channel Vt0 l beta Ugs (Ugs - u)).Ids)
          (beta * l * (Ugs - Vt0) ^ 2) Uds) ∧
    (Uds < 0 ∧ 0 < Ugs - Uds - Vt0 ∧ Ugs - Uds - Vt0 < -Uds →
      HasDerivAt (fun x => (channel Vt0 l beta x (x - Uds)).Ids)
          (channel Vt0 l beta Ugs (Ugs - Uds)).gm Ugs ∧
        HasDerivAt (fun u => (channel Vt0 l beta Ugs (Ugs - u)).Ids)
          (channel Vt0 l beta Ugs (Ugs - Uds)).gds Uds) := by
  constructor
  · rintro ⟨h1, h2⟩
    have e : ∀ x u : ℝ, 0 < x - Vt0 → x - Vt0 < u →
        channel Vt0 l beta x (x - u) = normalSat l beta (x - Vt0) u := by
      intro x u hx hu
      have a0 : (0 : ℝ) ≤ u := by linarith
      have a1 : ¬ (x - Vt0 < 0) := by linarith
      simp [channel_of_Uds, normalMode, a0, a1, hu.le]
    rw [e Ugs Uds h1 h2]
    constructor
    · have hd : HasDerivAt (fun x : ℝ => (normalSat l beta (x - Vt0) Uds).Ids)
          (normalSat l beta (Ugs - Vt0) Uds).gm Ugs := by
        simp only [normalSat]
        have d0 : HasDerivAt (fun x : ℝ => x - Vt0) 1 Ugs := (hasDerivAt_id Ugs).sub_const Vt0
        have d1 : HasDerivAt (fun x : ℝ => beta * (1 + l * Uds) * (x - Vt0))
            (beta * (1 + l * Uds) * 1) Ugs := d0.const_mul _
        exact (d1.mul d0).congr_deriv (by ring)
      refine hd.congr_of_eventuallyEq (eventually_of_mem
        (Ioo_mem_nhds (show Vt0 < Ugs by linarith) (show Ugs < Uds + Vt0 by linarith)) ?_)
      intro x hx
      show (channel Vt0 l beta x (x - Uds)).Ids = _
      rw [e x Uds (by linarith [hx.1]) (by linarith [hx.2])]
    · have hd : HasDerivAt (fun u : ℝ => (normalSat l beta (Ugs - Vt0) u).Ids)
          (beta * l * (Ugs - Vt0) ^ 2) Uds := by
        simp only [normalSat]
        have d1 : HasDerivAt (fun u : ℝ => beta * (1 + l * u)) (beta * l) Uds := by
          simpa using (((hasDerivAt_id Uds).const_mul l).const_add 1).const_mul beta
        exact ((d1.mul_const (Ugs - Vt0)).mul_const (Ugs - Vt0)).congr_deriv (by ring)
      refine hd.congr_of_eventuallyEq (eventually_of_mem (Ioi_mem_nhds h2) ?_)
      intro u hu
      have hu' : Ugs - Vt0 < u := hu
      show (channel Vt0 l beta Ugs (Ugs - u)).Ids = _
      rw [e Ugs u h1 hu']
  · rintro ⟨h0, h1, h2⟩
    have e : ∀ x u : ℝ, u < 0 → 0 < x - u - Vt0 → x - u - Vt0 < -u →
        channel Vt0 l beta x (x - u) = inverseSat l beta (x - u - Vt0) u := by
      intro x u hu hx hxu
      have a0 : ¬ (0 ≤ u) := by linarith
      have a1 : ¬ (x - u - Vt0 < 0) := by linarith
      simp [channel_of_Uds, inverseMode, a0, a1, hxu.le]
    rw [e Ugs Uds h0 h1 h2]
    constructor
    · have hd : HasDerivAt (fun x : ℝ => (inverseSat l beta (x - Uds - Vt0) Uds).Ids)
          (inverseSat l beta (Ugs - Uds - Vt0) Uds).gm Ugs := by
        simp only [inverseSat]
        have d0 : HasDerivAt (fun x : ℝ => x - Uds - Vt0) 1 Ugs :=
          ((hasDerivAt_id Ugs).sub_const Uds).sub_const Vt0
        have d1 : HasDerivAt (fun x : ℝ => -(beta * (1 - l * Uds)) * (x - Uds - Vt0))
            (-(beta * (1 - l * Uds)) * 1) Ugs := d0.const_mul _
        exact (d1.mul d0).congr_deriv (by ring)
      refine hd.congr_of_eventuallyEq (eventually_of_mem
        (Ioo_mem_nhds (show Uds + Vt0 < Ugs by linarith) (show Ugs < Vt0 by linarith)) ?_)
      intro x hx
      show (channel Vt0 l beta x (x - Uds)).Ids = _
      rw [e x Uds h0 (by linarith [hx.1]) (by linarith [hx.2])]
    · have hd : HasDerivAt (fun u : ℝ => (inverseSat l beta (Ugs - u - Vt0) u).Ids)
          (inverseSat l beta (Ugs - Uds - Vt0) Uds).gds Uds := by
        simp only [inverseSat]
        have d0 : HasDerivAt (fun u : ℝ => Ugs - u - Vt0) (-1) Uds := by
          simpa using ((hasDerivAt_id Uds).const_sub Ugs).sub_const Vt0
        have d1 : HasDerivAt (fun u : ℝ => -(beta * (1 - l * u))) (-(beta * -l)) Uds := by
          simpa using ((((hasDerivAt_id Uds).const_mul l).const_sub 1).const_mul beta).neg
        exact ((d1.mul d0).mul d0).congr_deriv (by ring)
      refine hd.congr_of_eventuallyEq (eventually_of_mem
        (Iio_mem_nhds (show Uds < Ugs - Vt0 by linarith)) ?_)
      intro u hu
      have hu' : u < Ugs - Vt0 := hu
      show (channel Vt0 l beta Ugs (Ugs - u)).Ids = _
      rw [e Ugs u (by linarith) (by linarith) (by linarith)]

/-- C19 (the code at the failing input): `Vt0 = -2`, `Lambda = 1/10`,
`Beta = 1/1000`, `Ugs = -1`, `Ugd = -3` lies strictly inside normal-mode
saturation (`Uds = 2`, `Ugst = 1`).  There `calcDC` computes `gds = 1.2e-4`,
while the derivative of the computed `Ids` with respect to `Uds` at fixed `Ugs`
is `1.0e-4`; so the computed `gds` is not that derivative. -/
theorem normal_saturation_gds_not_derivative :
    ((0 : ℝ) < 2 ∧ (0 : ℝ) < -1 - (-2) ∧ (-1 : ℝ) - (-2) < 2) ∧
      (channel (-2 : ℝ) (1 / 10) (1 / 1000) (-1) (-1 - 2)).gds = 12 / 100000 ∧
      HasDerivAt (fun u => (channel (-2 : ℝ) (1 / 10) (1 / 1000) (-1) (-1 - u)).Ids)
        (10 / 100000) 2 ∧
      ¬ HasDerivAt (fun u => (channel (-2 : ℝ) (1 / 10) (1 / 1000) (-1) (-1 - u)).Ids)
        (channel (-2 : ℝ) (1 / 10) (1 / 1000) (-1) (-1 - 2)).gds 2 := by
  have hg : (channel (-2 : ℝ) (1 / 10) (1 / 1000) (-1) (-1 - 2)).gds = 12 / 100000 := by
    norm_num [channel, normalMode, normalSat]
  have hd : HasDerivAt (fun u => (channel (-2 : ℝ) (1 / 10) (1 / 1000) (-1) (-1 - u)).Ids)
      (10 / 100000) 2 :=
    ((channel_saturation_derivatives (-2) (1 / 10) (1 / 1000) (-1) 2).1
      ⟨by norm_num, by norm_num⟩).2.congr_deriv (by norm_num)
  refine ⟨⟨by norm_num, by norm_num, by norm_num⟩, hg, hd, ?_⟩
  intro h
  rw [hg] at h
  have := hd.unique h
  norm_num at this

section SignTheorems

variable {α : Type} [LinearOrderedField α]

/-- C20: the channel current follows the sign of `Uds`.  For `Beta >= 0` and
`Lambda >= 0` the `Ids` computed by `calcDC` is non-negative when
`Uds = Ugs - Ugd >= 0` and non-positive when `Uds < 0`. -/
theorem channel_current_sign (Vt0 l beta Ugs Ugd : α) (hb : 0 ≤ beta) (hl : 0 ≤ l) :
    (Ugs - Ugd ≥ 0 → (channel Vt0 l beta Ugs Ugd).Ids ≥ 0) ∧
      (Ugs - Ugd < 0 → (channel Vt0 l beta Ugs Ugd).Ids ≤ 0) := by
  constructor
  · intro hU
    have hbp : 0 ≤ beta * (1 + l * (Ugs - Ugd)) :=
      mul_nonneg hb (by nlinarith [mul_nonneg hl hU])
    simp only [channel, hU, if_true, normalMode]
    split_ifs with h1 h2
    · exact le_refl _
    · simp only [normalSat]
      have := mul_nonneg hbp (mul_self_nonneg (Ugs - Vt0))
      simpa [mul_assoc] using this
    · simp only [normalLin]
      have h3 : 0 ≤ 2 * (Ugs - Vt0) - (Ugs - Ugd) := by
        have := not_le.mp h2
        linarith
      exact mul_nonneg (mul_nonneg hbp hU) h3
  · intro hU
    have hbp : 0 ≤ beta * (1 - l * (Ugs - Ugd)) :=
      mul_nonneg hb (by nlinarith [mul_nonneg hl (neg_nonneg.mpr hU.le)])
    simp only [channel, not_le.mpr hU, ge_iff_le, if_false, inverseMode]
    split_ifs with h1 h2
    · exact le_refl _
    · simp only [inverseSat]
      have := mul_nonneg hbp (mul_self_nonneg (Ugd - Vt0))
      have e : -(beta * (1 - l * (Ugs - Ugd))) * (Ugd - Vt0) * (Ugd - Vt0)
          = -(beta * (1 - l * (Ugs - Ugd)) * ((Ugd - Vt0) * (Ugd - Vt0))) := by ring
      rw [e]
      exact neg_nonpos.mpr this
    · simp only [inverseLin]
      have h3 : 0 ≤ 2 * (Ugd - Vt0) + (Ugs - Ugd) := by
        have := not_le.mp h2
        linarith
      have h4 : beta * (1 - l * (Ugs - Ugd)) * (Ugs - Ugd) ≤ 0 :=
        mul_nonpos_of_nonneg_of_nonpos hbp hU.le
      exact mul_nonpos_of_nonpos_of_nonneg h4 h3

/-- C20 (witness): `Beta = 1/1000`, `Lambda = 1/10`, `Vt0 = -2`, at
`Ugs = 0`, `Ugd = -5` (`Uds = 5`) and at `Ugs = -5`, `Ugd = 0` (`Uds = -5`). -/
theorem channel_current_sign_witness :
    ((0 : ℚ) ≤ 1 / 1000 ∧ (0 : ℚ) ≤ 1 / 10) ∧
      ((0 : ℚ) - (-5) ≥ 0 ∧ (channel (-2 : ℚ) (1 / 10) (1 / 1000) 0 (-5)).Ids ≥ 0) ∧
      ((-5 : ℚ) - 0 < 0 ∧ (channel (-2 : ℚ) (1 / 10) (1 / 1000) (-5) 0).Ids ≤ 0) :=
  ⟨⟨by norm_num, by norm_num⟩,
    ⟨by norm_num, (channel_current_sign (-2) (1 / 10) (1 / 1000) 0 (-5)
      (by norm_num) (by norm_num)).1 (by norm_num)⟩,
    ⟨by norm_num, (channel_current_sign (-2) (1 / 10) (1 / 1000) (-5) 0
      (by norm_num) (by norm_num)).2 (by norm_num)⟩⟩

end SignTheorems

end Qucsator
